import Mathlib

/-!
Shallow embedding of the FlashGraph page-cache core
(`src/associative_cache.cpp`, `src/libcache/global_cached_private.cpp`)
and proofs checking the specification's claims against it.

Machine integers (`off_t`, counters) are modelled as `Int`/`Nat`; the values
involved never approach overflow in the modelled scenarios.  C's `%` and `/`
on `off_t` are truncated division, modelled with `Int.tmod`/`Int.tdiv`.
-/

namespace FlashGraph

/-- Page size constant, 4096 bytes, from the cache configuration. -/
def PAGE_SIZE : Int := 4096

/-- Number of page slots per hash cell (bucket), 16, from the configuration. -/
def CELL_SIZE : Nat := 16

/-- Modelled from the spec: pages carry an "invalid" sentinel offset
(the header defining `PAGE_INVALID_OFFSET` is not under `src/`); the spec's
data model says a page offset is either a byte offset aligned to the page
size or a sentinel "invalid".  The sentinel is distinct from `-1`, which is
why `hash_cell::search` translates it to `-1` explicitly. -/
def PAGE_INVALID_OFFSET : Int := -PAGE_SIZE

/-- Modelled from the spec: a `thread_safe_page` (its class lives in a header
that is not under `src/`).  Fields follow the spec's data model: `offset`,
a data buffer (represented by an abstract identity `data`, enough to observe
whether the bytes of a frame were replaced), the flag bitfield
`data_ready/dirty/old_dirty/io_pending`, the hit counter and the reference
count.  `ref` is an `Int` so that claims about it staying non-negative are
not true by typing. -/
@[ext]
structure Page where
  offset : Int
  data : Nat
  dataReady : Bool
  dirty : Bool
  oldDirty : Bool
  ioPending : Bool
  hits : Nat
  ref : Int
deriving DecidableEq

/-- Modelled from the spec: a freshly allocated, uninitialized page frame:
invalid offset, all flags clear, no hits, no references. -/
def freshPage : Page :=
  { offset := PAGE_INVALID_OFFSET, data := 0, dataReady := false,
    dirty := false, oldDirty := false, ioPending := false, hits := 0, ref := 0 }

/-- The scan in both overloads of `hash_cell::search`: the first slot whose
page has the requested offset. -/
def findSlot (pages : List Page) (off : Int) : Option Nat :=
  pages.findIdx? fun p => p.offset == off

/-- Write back a page into a slot of a page list. -/
def setSlot (pages : List Page) (i : Nat) (p : Page) : List Page :=
  pages.set i p

/-- Read a slot of a page list (`page_cell::get_page`). -/
def getSlot (pages : List Page) (i : Nat) : Page :=
  pages.getD i freshPage

/-- Result of one run of `clock_eviction_policy::evict_page`
(src/associative_cache.cpp:376-412).  `evicted` carries the selected page as
it was at the moment of selection, its slot index, the value of the
`avoid_dirty` flag at selection time, the page array after the run
(`set_data_ready(false)`/`reset_hits()` applied to the victim) and the final
clock hand.  `allRef` is the `return NULL` path (all-referenced signal).
`outOfFuel` is the artefact of bounding the C `do/while` loop by fuel. -/
inductive ClockResult where
  | evicted (sel : Page) (idx : Nat) (avoidAtSel : Bool)
      (buf : List Page) (head : Nat)
  | allRef (buf : List Page) (head : Nat)
  | outOfFuel (buf : List Page) (head : Nat)
deriving DecidableEq

/-- Outcome of the body of one `do/while` iteration of
`clock_eviction_policy::evict_page`: either a result is returned
(selection or the all-referenced `NULL`), or the loop continues with
updated pages, hand and counters. -/
inductive ClockStep where
  | ret (r : ClockResult)
  | cont (buf : List Page) (head nr nd : Nat) (avoid : Bool)
deriving DecidableEq

/-- Body of one iteration of `clock_eviction_policy::evict_page`
(src/associative_cache.cpp:383-408), after the counter-reset check: a
referenced page bumps `num_referenced` (returning `NULL` once it reaches
`CELL_SIZE`, before the hand advances); a dirty page is skipped while
`avoid_dirty` holds; a page with zero hits is selected (the hand does not
advance past it, and the returned page gets `set_data_ready(false)` and
`reset_hits()` applied, src/associative_cache.cpp:409-410); otherwise the
page's hits are reset (`reset_hits`, src/associative_cache.cpp:406) and the
hand advances. -/
def clockBody (buf : List Page) (head nr nd : Nat) (avoid : Bool) : ClockStep :=
  if (getSlot buf (head % CELL_SIZE)).ref = 0 then
    if avoid && (getSlot buf (head % CELL_SIZE)).dirty then
      .cont buf (head + 1) nr (nd + 1) avoid
    else if (getSlot buf (head % CELL_SIZE)).hits = 0 then
      .ret (.evicted (getSlot buf (head % CELL_SIZE)) (head % CELL_SIZE) avoid
        (setSlot buf (head % CELL_SIZE)
          { getSlot buf (head % CELL_SIZE) with dataReady := false, hits := 0 })
        head)
    else
      .cont (setSlot buf (head % CELL_SIZE)
          { getSlot buf (head % CELL_SIZE) with hits := 0 })
        (head + 1) nr nd avoid
  else
    if CELL_SIZE ≤ nr + 1 then .ret (.allRef buf head)
    else .cont buf (head + 1) (nr + 1) nd avoid

/-- The `do/while` loop of `clock_eviction_policy::evict_page`
(src/associative_cache.cpp:376-412), one recursive call per iteration.  At
the top of an iteration, if `num_dirty + num_referenced` reached
`CELL_SIZE`, both counters reset and `avoid_dirty` is cleared
(src/associative_cache.cpp:385-389); then the iteration body runs. -/
def clockLoop : Nat → List Page → Nat → Nat → Nat → Bool → ClockResult
  | 0, buf, head, _, _, _ => .outOfFuel buf head
  | fuel+1, buf, head, nr0, nd0, avoid0 =>
    match (if CELL_SIZE ≤ nd0 + nr0 then clockBody buf head 0 0 false
           else clockBody buf head nr0 nd0 avoid0) with
    | .ret r => r
    | .cont b h nr nd av => clockLoop fuel b h nr nd av

/-- Modelled from the spec: `page_cell::scale_down_hits` (the container lives
in `container.cpp`, not under `src/`); the spec says that when a hit counter
saturates, "the bucket halves everyone's hits". -/
def scaleDownHits (buf : List Page) : List Page :=
  buf.map fun p => { p with hits := p.hits / 2 }

/-- Modelled from the spec: `page::hit()` bumps the saturating 8-bit hit
counter.  Saturation is enforced by the callers' `get_hits() == 0xff`
scale-down check, so the bump itself is a plain increment. -/
def pageHit (p : Page) : Page := { p with hits := p.hits + 1 }

/-- A hash cell (bucket): its fixed array of pages, the CLOCK policy's
persistent hand (`clock_eviction_policy::clock_head`) and the bucket's
`OVERFLOW` flag.  The bucket spin lock has no effect in this sequential
embedding. -/
structure Cell where
  pages : List Page
  clockHead : Nat
  overflow : Bool
deriving DecidableEq

/-- A cell as built by the `hash_cell` constructor: `CELL_SIZE` fresh frames
from the memory manager, hand at 0, flags clear. -/
def freshCell : Cell :=
  { pages := List.replicate CELL_SIZE freshPage, clockHead := 0, overflow := false }

/--`hash_cell::get_empty_page` (src/associative_cache.cpp:178-234) for a
non-expandable cache configuration (`associative_cache(cache_size, false)`),
in which `table->is_expandable()` is false, so the whole
expansion/`OVERFLOW` branch is skipped and the function is exactly one run
of the CLOCK eviction policy.  `none` models the busy-wait when every page
is referenced (the C code spins until another thread drops a reference,
which in a sequential model never happens), or fuel exhaustion. -/
def cellEvict (c : Cell) : Option (Nat × Cell) :=
  match clockLoop 100 c.pages c.clockHead 0 0 true with
  | .evicted _ i _ buf h => some (i, { c with pages := buf, clockHead := h })
  | _ => none

/-- The reference-count bump `inc_ref()`. -/
def incRef (p : Page) : Page := { p with ref := p.ref + 1 }

/-- The pages of a cell after writing `w` into slot `k` and applying the
`get_hits() == 0xff` bucket-wide scale-down check; the condition reads the
just-written page's counter (src/associative_cache.cpp:166-171). -/
def scaledAfterWrite (ps : List Page) (k : Nat) (w : Page) : List Page :=
  if w.hits = 255 then scaleDownHits (setSlot ps k w) else setSlot ps k w

/-- Common tail of both paths of `hash_cell::search(off, old_off)`
(src/associative_cache.cpp:164-172): write the updated page `w` into slot
`k`, apply the scale-down check, and `hit()` the page. -/
def writeSlotScaled (ps : List Page) (k : Nat) (w : Page) : List Page :=
  setSlot (scaledAfterWrite ps k w) k (pageHit (getSlot (scaledAfterWrite ps k w) k))

/-- The hit path of `hash_cell::search(off, old_off)`
(src/associative_cache.cpp:162-172): the CLOCK policy's `access_page` is a
no-op (modelled from the spec, which gives CLOCK no per-access bookkeeping
beyond the hit counter; the policy header is not under `src/`), then
`inc_ref()`, the scale-down check and `hit()`. -/
def hitPage (c : Cell) (i : Nat) : Cell :=
  { c with pages := writeSlotScaled c.pages i (incRef (getSlot c.pages i)) }

/-- The dirty-victim flip of `hash_cell::search(off, old_off)`
(src/associative_cache.cpp:138-141): a dirty, not-old-dirty victim becomes
clean and old-dirty. -/
def flipOldDirty (p : Page) : Page :=
  if p.dirty && !p.oldDirty then { p with dirty := false, oldDirty := true } else p

/-- Reading the victim's prior offset into `old_off`
(src/associative_cache.cpp:142-144): the invalid sentinel becomes `-1`. -/
def oldOffOf (p : Page) : Int :=
  if p.offset = PAGE_INVALID_OFFSET then -1 else p.offset

/-- The victim after the flip, `set_offset(off)` and `inc_ref()`. -/
def admitV3 (v : Page) (off : Int) : Page :=
  incRef { flipOldDirty v with offset := off }

/-- The miss path of `hash_cell::search(off, old_off)` after the victim at
slot `k` has been produced by `get_empty_page`
(src/associative_cache.cpp:136-172): flip a dirty, not-old-dirty victim to
old-dirty, read its prior offset into `old_off`, install the new offset,
increment the reference count, and run the scale-down/`hit()` tail.
Returns the updated cell and the final `old_off`. -/
def admitPage (c1 : Cell) (k : Nat) (off : Int) : Cell × Int :=
  ({ c1 with pages := writeSlotScaled c1.pages k (admitV3 (getSlot c1.pages k) off) },
   oldOffOf (flipOldDirty (getSlot c1.pages k)))

/-- `hash_cell::search(off_t off, off_t &old_off)`
(src/associative_cache.cpp:119-175).  Takes the caller's current value of
`old_off` and returns the slot of the returned page, the updated cell and
the final value of `old_off`.  On a hit `old_off` is left untouched and the
page is accessed via `hitPage`; on a miss the victim comes from
`get_empty_page` and is admitted via `admitPage`, which also writes
`old_off`. -/
def searchCellOld (c : Cell) (off oldOff : Int) : Option (Nat × Cell × Int) :=
  match findSlot c.pages off with
  | some i => some (i, hitPage c i, oldOff)
  | none =>
    match cellEvict c with
    | none => none
    | some (k, c1) => some (k, (admitPage c1 k off).1, (admitPage c1 k off).2)

/-- `hash_cell::search(off_t offset)` (src/associative_cache.cpp:95-113), the
hit-only overload used by the flush thread's callback: scan, and on a hit
scale down a saturated counter, increment the reference count and `hit()`
the page; on a miss return `NULL` (`none`). -/
def searchCellRef (c : Cell) (off : Int) : Option (Nat × Cell) :=
  match findSlot c.pages off with
  | none => none
  | some i =>
    let pages1 := if (getSlot c.pages i).hits = 255 then scaleDownHits c.pages else c.pages
    let p1 := getSlot pages1 i
    let pages2 := setSlot pages1 i (pageHit { p1 with ref := p1.ref + 1 })
    some (i, { c with pages := pages2 })

/-- The fields of a page that the CLOCK eviction loop never writes: offset,
buffer contents, dirty/old-dirty/io-pending flags and the reference count
(the loop only touches `hits` and `data_ready`). -/
def pagePres (p q : Page) : Prop :=
  q.offset = p.offset ∧ q.data = p.data ∧ q.dirty = p.dirty ∧
  q.oldDirty = p.oldDirty ∧ q.ioPending = p.ioPending ∧ q.ref = p.ref

/-- Slotwise `pagePres` between two page arrays of equal length. -/
def bufPres (b b' : List Page) : Prop :=
  b'.length = b.length ∧ ∀ j, pagePres (getSlot b j) (getSlot b' j)

/-- Equality of two pages in every field except the hit counter; the
scale-down and `hit()` steps only touch `hits`. -/
def eqExceptHits (p q : Page) : Prop :=
  q.offset = p.offset ∧ q.data = p.data ∧ q.dataReady = p.dataReady ∧
  q.dirty = p.dirty ∧ q.oldDirty = p.oldDirty ∧ q.ioPending = p.ioPending ∧
  q.ref = p.ref

/-- The loop of `hash_cell::rehash` (src/associative_cache.cpp:41-93),
recursing over the source cell's pages while consuming uninitialized target
slots in order (the `j` counter).  For each source page: if its `hash1`
differs from the target cell's hash, its hits are set to 1 and it stays
(src/associative_cache.cpp:59-62); otherwise, if the source hash differs
from `hash1` (always true when source and target hashes differ), the page
is swapped with the next target slot — but only if its refcount is zero,
else it is skipped unchanged (src/associative_cache.cpp:68-88).  The
first component of the result is the new source page array, the second the
new target page array (consumed slots replaced by the moved pages, the
rest unchanged).  The `[]` target case is unreachable when the target has
at least as many slots as the source. -/
def rehashGo (h1f : Int → Int) (srcHash tgtHash : Int) :
    List Page → List Page → List Page × List Page
  | [], tgt => ([], tgt)
  | p :: src, tgt =>
    if h1f p.offset ≠ tgtHash then
      ({ p with hits := 1 } :: (rehashGo h1f srcHash tgtHash src tgt).1,
       (rehashGo h1f srcHash tgtHash src tgt).2)
    else if srcHash ≠ h1f p.offset then
      if p.ref ≠ 0 then
        (p :: (rehashGo h1f srcHash tgtHash src tgt).1,
         (rehashGo h1f srcHash tgtHash src tgt).2)
      else
        match tgt with
        | [] =>
          (p :: (rehashGo h1f srcHash tgtHash src []).1,
           (rehashGo h1f srcHash tgtHash src []).2)
        | t :: tgtRest =>
          (t :: (rehashGo h1f srcHash tgtHash src tgtRest).1,
           p :: (rehashGo h1f srcHash tgtHash src tgtRest).2)
    else
      (p :: (rehashGo h1f srcHash tgtHash src tgt).1,
       (rehashGo h1f srcHash tgtHash src tgt).2)

/-- `hash_cell::rehash(expanded)` (src/associative_cache.cpp:41-93) on a
source and target cell: run the page loop and clear the source cell's
`OVERFLOW` flag (src/associative_cache.cpp:92). -/
def rehashCells (h1f : Int → Int) (srcHash tgtHash : Int) (src tgt : Cell) :
    Cell × Cell :=
  ({ src with
      pages := (rehashGo h1f srcHash tgtHash src.pages tgt.pages).1,
      overflow := false },
   { tgt with
      pages := (rehashGo h1f srcHash tgtHash src.pages tgt.pages).2 })

/-- The directory of the associative cache: linear-hashing round `level`,
next split pointer `split`, group width `init_ncells`, the two-level table
`cells_table` of bucket groups (`ncells` in the code counts the installed
groups, so the spec's total-bucket count is `groups.length * initN`), the
`TABLE_EXPANDING` flag, and the memory manager's free-page reserve
(modelled from the spec as a page budget; the `memory_manager` class is not
under `src/`). -/
structure DirState where
  level : Nat
  split : Nat
  initN : Nat
  groups : List (List Cell)
  expanding : Bool
  budget : Nat
deriving DecidableEq

/-- `associative_cache::get_cell(i)`: group `i / init_ncells`, slot
`i % init_ncells` (modelled from the spec's two-level directory; the header
is not under `src/`). -/
def getCellD (st : DirState) (i : Nat) : Cell :=
  (st.groups.getD (i / st.initN) []).getD (i % st.initN) freshCell

/-- Write a cell back into the directory at index `i`. -/
def setCellD (st : DirState) (i : Nat) (c : Cell) : DirState :=
  { st with
    groups := st.groups.set (i / st.initN)
      ((st.groups.getD (i / st.initN) []).set (i % st.initN) c) }

/-- Modelled from the spec: offsets hash by page index
(`off / PAGE_SIZE`, truncated division as in C). -/
def pageIdx (off : Int) : Int := Int.tdiv off PAGE_SIZE

/-- Modelled from the spec: `hash1(off) = off mod (2^(level+1) ·
init_ncells)` with `off` taken as the page index; this is
`associative_cache::hash1_locked`, whose header is not under `src/`.
`Int.tmod` matches C's truncated `%` (negative for the invalid sentinel,
hence never equal to a cell index). -/
def hash1At (level initN : Nat) (off : Int) : Int :=
  Int.tmod (pageIdx off) ((2 ^ (level + 1) * initN : Nat) : Int)

/-- `hash1` at a directory state's current round. -/
def hash1 (st : DirState) (off : Int) : Int := hash1At st.level st.initN off

/-- Modelled from the spec: `hash0(off) = off mod (2^level · init_ncells)`
with `off` taken as the page index. -/
def hash0 (st : DirState) (off : Int) : Int :=
  Int.tmod (pageIdx off) ((2 ^ st.level * st.initN : Nat) : Int)

/-- Modelled from the spec: the effective lookup hash of
`associative_cache::get_cell_offset` — `hash1` for already-split buckets
(`hash0 < split`), else `hash0`. -/
def effectiveHash (st : DirState) (off : Int) : Nat :=
  if hash0 st off < (st.split : Int) then (hash1 st off).toNat
  else (hash0 st off).toNat

/-- One rehash step of `associative_cache::expand`
(src/associative_cache.cpp:557-558): rehash the cell at `split` into the
cell at `split + size` using the current round's `hash1`. -/
def rehashStep (st : DirState) (size : Nat) : DirState :=
  setCellD
    (setCellD st st.split
      (rehashCells (hash1 st) (st.split : Int) ((st.split + size : Nat) : Int)
        (getCellD st st.split) (getCellD st (st.split + size))).1)
    (st.split + size)
    (rehashCells (hash1 st) (st.split : Int) ((st.split + size : Nat) : Int)
      (getCellD st st.split) (getCellD st (st.split + size))).2

/-- Group allocation of `associative_cache::expand`
(src/associative_cache.cpp:523-554): create the groups from the current
count up to the needed index, each group being `init_ncells` fresh cells of
`CELL_SIZE` page frames taken from the memory manager's reserve; stop at
the first group the reserve cannot cover and install only the successfully
built groups.  Returns the updated state and the `out_of_memory` flag. -/
def installGroups (st : DirState) (need : Nat) : DirState × Bool :=
  ({ st with
      groups := st.groups
        ++ List.replicate (min need (st.budget / (st.initN * CELL_SIZE)))
             (List.replicate st.initN freshCell),
      budget := st.budget
        - min need (st.budget / (st.initN * CELL_SIZE)) * (st.initN * CELL_SIZE) },
   min need (st.budget / (st.initN * CELL_SIZE)) < need)

/-- How one iteration of the `while` loop of `associative_cache::expand`
ends: the loop guard saw the trigger bucket's overflow flag clear; the
round ended (`split` wrapped and `level` incremented,
src/associative_cache.cpp:561-567); group allocation ran out of memory
(src/associative_cache.cpp:553-554); or the fuel bound of the embedding was
reached. -/
inductive ExitKind where
  | trigCleared
  | roundEnd
  | oom
  | fuelOut
deriving DecidableEq

/-- One iteration of the `while` loop of `associative_cache::expand`
(src/associative_cache.cpp:516-570): check the trigger bucket's overflow
flag, allocate groups if the target index `(split + size) / init_ncells`
is beyond the installed groups (returning with `out_of_memory` before any
rehash on failure), rehash the bucket at `split` into `split + size`,
advance `split`, and wrap the round when `split` reaches `size`. -/
def expandIter (trigger size : Nat) (st : DirState) : DirState × Option ExitKind :=
  if (getCellD st trigger).overflow = false then (st, some .trigCleared)
  else
    match (if st.groups.length ≤ (st.split + size) / st.initN then
             installGroups st ((st.split + size) / st.initN + 1 - st.groups.length)
           else (st, false)) with
    | (st1, true) => (st1, some .oom)
    | (st1, false) =>
      if (rehashStep st1 size).split + 1 = size then
        ({ rehashStep st1 size with
            split := 0,
            level := (rehashStep st1 size).level + 1 }, some .roundEnd)
      else
        ({ rehashStep st1 size with
            split := (rehashStep st1 size).split + 1 }, none)

/-- The `while` loop of `associative_cache::expand`, one fuel unit per
iteration. -/
def expandLoop (trigger size : Nat) : Nat → DirState → DirState × ExitKind
  | 0, st => (st, .fuelOut)
  | fuel+1, st =>
    match expandIter trigger size st with
    | (st', some k) => (st', k)
    | (st', none) => expandLoop trigger size fuel st'

/-- `associative_cache::expand(trigger_cell)`
(src/associative_cache.cpp:492-573).  If `TABLE_EXPANDING` is already set,
another thread is expanding: return `false` with the state unchanged.
Otherwise set the flag, fix `size = 2^level · init_ncells`, and run the
loop (the fuel `size + 1` covers every reachable iteration count).  On the
out-of-memory exit the function returns `false` WITHOUT clearing
`TABLE_EXPANDING` (the early `return false` at
src/associative_cache.cpp:553-554 skips the `clear_flag` at line 571); on
every other exit the flag is cleared and `true` is returned. -/
def expandModel (st : DirState) (trigger : Nat) : DirState × Bool :=
  if st.expanding then (st, false)
  else
    match expandLoop trigger (2 ^ st.level * st.initN)
        (2 ^ st.level * st.initN + 1) { st with expanding := true } with
    | (st2, .oom) => (st2, false)
    | (st2, _) => ({ st2 with expanding := false }, true)

/-- The directory as built by the `associative_cache` constructor
(src/associative_cache.cpp:601-636): `level = 0`, `split = 0`, one
installed group of `init_ncells` fresh cells, flags clear. -/
def initDirState (initN budget : Nat) : DirState :=
  { level := 0, split := 0, initN := initN,
    groups := [List.replicate initN freshCell],
    expanding := false, budget := budget }

/-- Reachable directory states: the constructor's initial state (with at
least one bucket per group), any state after an `expand` call, and any
state whose cells, budget or flags changed while the directory shape
(`level`, `split`, `init_ncells`, the group count and the `TABLE_EXPANDING`
flag) is untouched — lookups and searches mutate pages and overflow flags
but never the directory counters. -/
inductive Reach : DirState → Prop where
  | init (initN budget : Nat) (h : 1 ≤ initN) : Reach (initDirState initN budget)
  | expand (st : DirState) (trigger : Nat) (h : Reach st) :
      Reach (expandModel st trigger).1
  | mutate (st st' : DirState) (h : Reach st)
      (hlevel : st'.level = st.level) (hsplit : st'.split = st.split)
      (hinitN : st'.initN = st.initN)
      (hgroups : st'.groups.length = st.groups.length)
      (hexp : st'.expanding = st.expanding) : Reach st'

/-- Directory counters untouched between two states. -/
def dirShapeEq (st st' : DirState) : Prop :=
  st'.level = st.level ∧ st'.split = st.split ∧ st'.initN = st.initN ∧
  st'.expanding = st.expanding

/-- The second state's directory extends the first's by whole fresh groups
only (existing groups untouched, no partial group). -/
def groupsAppend (st st' : DirState) : Prop :=
  ∃ kk, st'.groups = st.groups ++ List.replicate kk (List.replicate st.initN freshCell)

/-! ### Concrete fixtures used by counterexamples and witnesses -/

/-- A fresh cell with its overflow flag set. -/
def ovCell : Cell := { freshCell with overflow := true }

/-- A one-bucket expandable directory with an overflowing trigger bucket
and an empty memory reserve, so expansion hits out-of-memory. -/
def c3st : DirState :=
  { level := 0, split := 0, initN := 1, groups := [[ovCell]],
    expanding := false, budget := 0 }

/-- A directory mid-round (`level = 1`, `split = 1`) with four installed
groups; bucket 0 (the trigger) is overflowing but is not the bucket at
`split`, so the round ends with the trigger's flag still set. -/
def c6st : DirState :=
  { level := 1, split := 1, initN := 1,
    groups := [[ovCell], [ovCell], [freshCell], [freshCell]],
    expanding := false, budget := 0 }

/-- A page pinned by one holder. -/
def c7refPage : Page := { freshPage with ref := 1 }

/-- A clean, unpinned, data-ready page at offset 4096 with hit count 5. -/
def c7pageA : Page := { freshPage with offset := 4096, dataReady := true, hits := 5 }

/-- A bucket where slot 0 is evictable (`c7pageA`) and slots 1-15 are pinned. -/
def c7bufA : List Page := c7pageA :: List.replicate 15 c7refPage

/-- A clean, unpinned, data-ready page at offset 4096 with hit count 3. -/
def c7pageB : Page := { freshPage with offset := 4096, dataReady := true, hits := 3 }

/-- A bucket where slot 0 is `c7pageB` and slots 1-15 are pinned. -/
def c7bufB : List Page := c7pageB :: List.replicate 15 c7refPage

/-- A bucket of 16 pinned pages. -/
def c7ref16 : List Page := List.replicate 16 c7refPage

/-- A bucket of 16 fresh pages. -/
def c7fresh16 : List Page := List.replicate 16 freshPage

/-- A clean, unpinned, data-ready page at offset 4096 with zero hits. -/
def c1page : Page := { freshPage with offset := 4096, dataReady := true }

/-- A bucket whose slot 0 holds the clean page `c1page` and whose other
slots are pinned, so a miss evicts slot 0. -/
def c1cell : Cell :=
  { pages := c1page :: List.replicate 15 c7refPage, clockHead := 0, overflow := false }

/-- The page expected at slot 0 of `c1cell` after `search(8192, old_off)`
admits offset 8192 over the clean victim. -/
def c1pageAfter : Page :=
  { offset := 8192, data := 0, dataReady := false, dirty := false,
    oldDirty := false, ioPending := false, hits := 1, ref := 1 }

/-- The cell expected after `search(8192, old_off)` on `c1cell`. -/
def c1cellAfter : Cell :=
  { pages := setSlot c1cell.pages 0 c1pageAfter, clockHead := 0, overflow := false }

/-- A mid-round directory (`level = 1`, `split = 0`) with an overflowing
trigger bucket, two installed groups and enough reserve to allocate the
third, so one expand iteration continues normally. -/
def c8stA : DirState :=
  { level := 1, split := 0, initN := 1, groups := [[ovCell], [freshCell]],
    expanding := true, budget := 100 }

/-- The `hash1` of the C4 rehash fixtures: round `level = 0` with one
bucket per group, so a page hashes on the parity of its page index
(source bucket 0, target bucket 1). -/
def c4h1 : Int → Int := hash1At 0 1

/-- A dirty, pinned (`ref = 1`) page with hits 5 whose `hash1` maps it to
the target bucket of the C4 rehash. -/
def c4page : Page :=
  { freshPage with
      offset := 4096, dataReady := true, dirty := true, hits := 5, ref := 1 }

/-- A clean, unpinned page with hits 7 whose `hash1` maps it to the target
bucket, so the rehash moves it. -/
def c4pageMov : Page :=
  { freshPage with
      offset := 4096, dataReady := true, hits := 7 }

/-- A source bucket holding the pinned target-mapped page `c4page` in slot
0 and uninitialized pages elsewhere. -/
def c4src : Cell :=
  { pages := c4page :: List.replicate 15 freshPage, clockHead := 0,
    overflow := true }

/-- A source bucket holding the movable target-mapped page `c4pageMov` in
slot 0 and uninitialized pages elsewhere. -/
def c4srcM : Cell :=
  { pages := c4pageMov :: List.replicate 15 freshPage, clockHead := 0,
    overflow := true }

/-- An uninitialized target bucket of 16 fresh pages. -/
def c4tgt : Cell := freshCell

/-- `ROUND_PAGE(off) = ((long) off) & ~((long) PAGE_SIZE - 1)`
(src/include/common_c.h:18): clearing the low bits of a two's-complement
long rounds down to a multiple of `PAGE_SIZE`, i.e. subtracts the
non-negative remainder. -/
def ROUND_PAGE (off : Int) : Int := off - Int.emod off PAGE_SIZE

/-- Read a bucket of a flat (non-expandable, `level = 0`, `split = 0`)
cell table. -/
def getCellL (cells : List Cell) (h : Nat) : Cell := cells.getD h freshCell

/-- Write back a bucket of a flat cell table. -/
def setCellL (cells : List Cell) (h : Nat) (c : Cell) : List Cell :=
  cells.set h c

/-- The bucket index of an offset in a flat cell table:
`associative_cache::get_cell_offset` at `level = 0`, `split = 0` reduces to
`hash0`, i.e. the page index modulo the bucket count (C `%` on `off_t`,
truncated). -/
def cacheHashOf (cells : List Cell) (off : Int) : Nat :=
  (Int.tmod (pageIdx off) (cells.length : Int)).toNat

/-- Write page `p` into slot `i` of a cell. -/
def cellPutSlot (c : Cell) (i : Nat) (p : Page) : Cell :=
  { c with pages := setSlot c.pages i p }

/-- The preload marking of a not-yet-ready page
(src/libcache/global_cached_private.cpp:1077-1080): if `data_ready` is
clear, clear `io_pending` and set `data_ready` — without reading anything
into the frame. -/
def markReady (p : Page) : Page :=
  if p.dataReady then p else { p with ioPending := false, dataReady := true }

/-- `dec_ref()` (src/libcache/global_cached_private.cpp:1081). -/
def decRef (p : Page) : Page := { p with ref := p.ref - 1 }

/-- `associative_cache::search(off, old_off)`
(src/associative_cache.cpp:575-589) on a non-expandable cache: locate the
bucket by the effective hash and run `hash_cell::search(off, old_off)` in
it (no `expand_exception` can be thrown in this configuration).  Returns
the bucket index, the slot index, the updated table and the final
`old_off`. -/
def cacheSearchOld (cells : List Cell) (off oldOff : Int) :
    Option (Nat × Nat × List Cell × Int) :=
  match searchCellOld (getCellL cells (cacheHashOf cells off)) off oldOff with
  | none => none
  | some (i, c1, o) =>
    some (cacheHashOf cells off, i,
      setCellL cells (cacheHashOf cells off) c1, o)

/-- One iteration of the `global_cached_io::preload` loop
(src/libcache/global_cached_private.cpp:1072-1082): `old_off = -1`, search
`ROUND_PAGE(offset)` (which increments the found page's refcount), mark a
not-yet-ready page data-ready without any I/O, then `dec_ref()`. -/
def preloadStep (cells : List Cell) (off : Int) : Option (List Cell) :=
  match cacheSearchOld cells (ROUND_PAGE off) (-1) with
  | none => none
  | some (hc, i, cells1, _) =>
    some (setCellL cells1 hc
      (cellPutSlot (getCellL cells1 hc) i
        (decRef (markReady (getSlot (getCellL cells1 hc).pages i)))))

/-- The preload loop over `n` consecutive pages starting at `off`
(src/libcache/global_cached_private.cpp:1072-1082). -/
def preloadLoop (cells : List Cell) (off : Int) : Nat → Option (List Cell)
  | 0 => some cells
  | n + 1 =>
    match preloadStep cells off with
    | none => none
    | some cells1 => preloadLoop cells1 (off + PAGE_SIZE) n

/-- The number of iterations of the preload `for` loop: one per page offset
in `[start, start + size)` stepping by `PAGE_SIZE`, i.e. `⌈size /
PAGE_SIZE⌉` (zero for non-positive sizes). -/
def numPreloadPages (size : Int) : Nat :=
  (size.toNat + PAGE_SIZE.toNat - 1) / PAGE_SIZE.toNat

/-- `global_cached_io::preload(start, size)`
(src/libcache/global_cached_private.cpp:1065-1084).  `none` models process
termination: `exit(1)` when `size > cache_size`, or the
`assert(ROUND_PAGE(start) == start)` failing on an unaligned start. -/
def preloadModel (cells : List Cell) (start size cacheSize : Int) :
    Option (List Cell) :=
  if size > cacheSize then none
  else if ROUND_PAGE start ≠ start then none
  else preloadLoop cells start (numPreloadPages size)

/-- A not-yet-ready, unreferenced page at offset 0 whose frame holds
left-over bytes (`data = 7`). -/
def c10page : Page := { freshPage with offset := 0, data := 7 }

/-- A bucket holding `c10page` in slot 0, other slots pinned. -/
def c10cell : Cell :=
  { pages := c10page :: List.replicate 15 c7refPage, clockHead := 0,
    overflow := false }

/-- A one-bucket cache table for the preload witness. -/
def c10cache : List Cell := [c10cell]

/-- The page-flag updates of `associative_flush_thread::request_callback`
(src/associative_cache.cpp:738-739, 750-751): `set_dirty(false)`,
`set_io_pending(false)`. -/
def clearFlagsFlush (p : Page) : Page :=
  { p with dirty := false, ioPending := false }

/-- The page-flag updates of the write branch of
`access_page_callback::multibuf_invoke`
(src/libcache/global_cached_private.cpp:251-254): `set_dirty(false)`,
`set_old_dirty(false)`, `set_io_pending(false)`. -/
def clearFlagsWrite (p : Page) : Page :=
  { p with dirty := false, oldDirty := false, ioPending := false }

/-- One iteration of the multi-buffer loop of
`associative_flush_thread::request_callback`
(src/associative_cache.cpp:744-757): `cache->search(off)` (the hit-only
overload, which increments the found page's refcount), `assert(p)`,
`assert(p->is_dirty())`, clear the dirty and io-pending flags, then
`dec_ref()` twice — once for the search above and once for the reference
the flush request held.  `none` models an assertion failure. -/
def reqCallbackStep (cells : List Cell) (off : Int) : Option (List Cell) :=
  match searchCellRef (getCellL cells (cacheHashOf cells off)) off with
  | none => none
  | some (i, c1) =>
    if (getSlot c1.pages i).dirty = true then
      some (setCellL cells (cacheHashOf cells off)
        (cellPutSlot c1 i
          (decRef (decRef (clearFlagsFlush (getSlot c1.pages i))))))
    else none

/-- The multi-buffer loop of `request_callback` over `n` buffers starting
at the request's offset, advancing by `PAGE_SIZE`
(src/associative_cache.cpp:744-757). -/
def reqCallbackLoop (cells : List Cell) (off : Int) : Nat → Option (List Cell)
  | 0 => some cells
  | n + 1 =>
    match reqCallbackStep cells off with
    | none => none
    | some cells1 => reqCallbackLoop cells1 (off + PAGE_SIZE) n

/-- The single-buffer branch of `request_callback`
(src/associative_cache.cpp:734-742): the page comes from the request's
private field (modelled as its bucket/slot location), `assert(p->is_dirty())`,
clear the dirty and io-pending flags and drop the flush request's single
reference. -/
def reqCallbackSingle (cells : List Cell) (hc i : Nat) : Option (List Cell) :=
  if (getSlot (getCellL cells hc).pages i).dirty = true then
    some (setCellL cells hc
      (cellPutSlot (getCellL cells hc) i
        (decRef (clearFlagsFlush (getSlot (getCellL cells hc).pages i)))))
  else none

/-- The write branch of `access_page_callback::multibuf_invoke`
(src/libcache/global_cached_private.cpp:238-271): for each page of the
request (modelled as its bucket/slot location), clear dirty, old-dirty and
io-pending, and `dec_ref()` unless the page is the request's private page
(the one that triggered the flush). -/
def multibufWriteInvoke : List Cell → List (Nat × Nat) → (Nat × Nat) → List Cell
  | cells, [], _ => cells
  | cells, l :: rest, priv =>
    multibufWriteInvoke
      (setCellL cells l.1 (cellPutSlot (getCellL cells l.1) l.2
        (if l = priv then
          clearFlagsWrite (getSlot (getCellL cells l.1).pages l.2)
        else
          decRef (clearFlagsWrite (getSlot (getCellL cells l.1).pages l.2)))))
      rest priv

/-- A dirty, io-pending, data-ready page at offset 0 holding one flush
reference. -/
def c2page : Page :=
  { freshPage with
      offset := 0, dataReady := true, dirty := true, ioPending := true,
      ref := 1 }

/-- A dirty, io-pending, data-ready page at offset 4096 holding one flush
reference. -/
def c2pageB : Page :=
  { freshPage with
      offset := 4096, dataReady := true, dirty := true, ioPending := true,
      ref := 1 }

/-- A one-bucket cache for the flush-callback witness: slot 0 holds the
dirty page `c2page`. -/
def c2cache : List Cell :=
  [{ pages := c2page :: List.replicate 15 freshPage, clockHead := 0,
     overflow := false }]

/-- A one-bucket cache for the multibuf-write witness: slots 0 and 1 hold
the dirty pages `c2page` and `c2pageB`. -/
def c2cacheW : List Cell :=
  [{ pages := c2page :: c2pageB :: List.replicate 14 freshPage,
     clockHead := 0, overflow := false }]

/-- A flush-engine write request as the transport sees it: the file
`offset` it starts at and its buffer vector in order.  Each buffer holds
one cached page's frame verbatim, so a buffer is represented by the offset
of the page whose bytes it carries (requests are built in
`associative_flush_thread::run`, src/associative_cache.cpp:786-787, from
`p->get_data()` of the page at `p->get_offset()`). -/
structure FlushReq where
  offset : Int
  bufs : List Int
deriving DecidableEq

/-- `get_size()` of an extended request: `num_bufs * PAGE_SIZE`. -/
def reqSize (r : FlushReq) : Int := (r.bufs.length : Int) * PAGE_SIZE

/-- `io_req_extension::add_buf` (src/libsafs/io_request.cpp:101-106):
appends the buffer at the END of the vector (`vec_pointer[num_bufs]`). -/
def addBuf (r : FlushReq) (p : Int) : FlushReq :=
  { r with bufs := r.bufs ++ [p] }

/-- The backward-merge update of `merge_pages2reqs`
(src/associative_cache.cpp:674-679): `add_buf` the adjacent page's data,
then `set_offset` to make the page's offset the new start. -/
def backwardMerge (r : FlushReq) (pOff : Int) : FlushReq :=
  { addBuf r pOff with offset := pOff }

/-- The forward-merge update: just `add_buf` (src/associative_cache.cpp:
674). -/
def forwardMerge (r : FlushReq) (pOff : Int) : FlushReq := addBuf r pOff

/-- `dirty_pages.find(key)` on the cell's dirty-page map, modelled as an
association list from page offset to page. -/
def findDirty (m : List (Int × Page)) (k : Int) : Option Page :=
  match m.find? (fun e => e.1 == k) with
  | none => none
  | some e => some e.2

/-- `dirty_pages.erase(it)` for the entry at key `k`. -/
def eraseDirty (m : List (Int × Page)) (k : Int) : List (Int × Page) :=
  m.eraseP (fun e => e.1 == k)

/-- `merge_pages2reqs(requests, dirty_pages, forward, complete)`
(src/associative_cache.cpp:655-716).  Walks the request vector; for each
request looks up the adjacent dirty page (next offset for forward, previous
for backward).  A found, non-io-pending page is merged by `add_buf` — plus
`set_offset` when backward; an io-pending or missing neighbour moves the
request to `complete`.  Returns the requests kept for further merging, the
completed requests, and the leftover map (whose pages the code only
`dec_ref`s).  `none` models the asserts on `is_old_dirty`/`data_ready`
failing. -/
def mergeLoop (forward : Bool) : List FlushReq → List (Int × Page) →
    Option (List FlushReq × List FlushReq × List (Int × Page))
  | [], m => some ([], [], m)
  | r :: rs, m =>
    match findDirty m
      (if forward then r.offset + reqSize r else r.offset - PAGE_SIZE) with
    | some p =>
      if p.oldDirty then none
      else if p.dataReady = false then none
      else if p.ioPending then
        match mergeLoop forward rs
          (eraseDirty m
            (if forward then r.offset + reqSize r
             else r.offset - PAGE_SIZE)) with
        | none => none
        | some (kept, comp, mq) => some (kept, r :: comp, mq)
      else
        match mergeLoop forward rs
          (eraseDirty m
            (if forward then r.offset + reqSize r
             else r.offset - PAGE_SIZE)) with
        | none => none
        | some (kept, comp, mq) =>
          some ((if forward then forwardMerge r p.offset
                 else backwardMerge r p.offset) :: kept, comp, mq)
    | none =>
      match mergeLoop forward rs m with
      | none => none
      | some (kept, comp, mq) => some (kept, r :: comp, mq)

/-- The claim's byte-for-byte property of a write request: the buffer at
each page-aligned position holds exactly the page whose offset equals that
position. -/
def reqInOrder (r : FlushReq) : Prop :=
  ∀ k, k < r.bufs.length →
    r.bufs[k]? = some (r.offset + (k : Int) * PAGE_SIZE)

instance (r : FlushReq) : Decidable (reqInOrder r) :=
  inferInstanceAs (Decidable (∀ k, k < r.bufs.length →
    r.bufs[k]? = some (r.offset + (k : Int) * PAGE_SIZE)))

/-- A dirty, data-ready, non-io-pending page at offset 4096, adjacent in
front of the C5 request. -/
def c5page : Page :=
  { freshPage with offset := 4096, dataReady := true, dirty := true, ref := 1 }

/-- A flush request covering exactly the page at offset 8192. -/
def c5req : FlushReq := { offset := 8192, bufs := [8192] }

/-- The previous cell's dirty-page map holding `c5page`. -/
def c5map : List (Int × Page) := [(4096, c5page)]

/-! ## Theorems -/

theorem pagePres_refl (p : Page) : pagePres p p := by
  simp [pagePres]

theorem pagePres_trans {p q r : Page} (h1 : pagePres p q) (h2 : pagePres q r) :
    pagePres p r :=
  ⟨h2.1.trans h1.1, h2.2.1.trans h1.2.1, h2.2.2.1.trans h1.2.2.1,
   h2.2.2.2.1.trans h1.2.2.2.1, h2.2.2.2.2.1.trans h1.2.2.2.2.1,
   h2.2.2.2.2.2.trans h1.2.2.2.2.2⟩

theorem bufPres_refl (b : List Page) : bufPres b b :=
  ⟨rfl, fun _ => pagePres_refl _⟩

theorem bufPres_trans {a b c : List Page} (h1 : bufPres a b) (h2 : bufPres b c) :
    bufPres a c :=
  ⟨h2.1.trans h1.1, fun j => pagePres_trans (h1.2 j) (h2.2 j)⟩

theorem getSlot_set_self {buf : List Page} {i : Nat} (p : Page)
    (h : i < buf.length) : getSlot (setSlot buf i p) i = p := by
  simp [getSlot, setSlot, List.getD, List.getElem?_set_eq h]

theorem getSlot_set_ne {buf : List Page} {i j : Nat} (p : Page)
    (h : i ≠ j) : getSlot (setSlot buf i p) j = getSlot buf j := by
  simp [getSlot, setSlot, List.getD, List.getElem?_set_ne h]

theorem setSlot_oob {buf : List Page} {i : Nat} (p : Page)
    (h : buf.length ≤ i) : setSlot buf i p = buf := by
  simp [setSlot, List.set_eq_of_length_le h]

theorem bufPres_set {buf : List Page} {i : Nat} {p : Page}
    (h : pagePres (getSlot buf i) p) : bufPres buf (setSlot buf i p) := by
  constructor
  · simp [setSlot]
  · intro j
    by_cases hij : i = j
    · subst hij
      by_cases hl : i < buf.length
      · rw [getSlot_set_self p hl]; exact h
      · rw [setSlot_oob p (Nat.le_of_not_lt hl)]; exact pagePres_refl _
    · rw [getSlot_set_ne p hij]; exact pagePres_refl _

theorem clockBody_cont {buf : List Page} {head nr nd : Nat} {avoid : Bool}
    {b : List Page} {h nr' nd' : Nat} {av : Bool}
    (hc : clockBody buf head nr nd avoid = .cont b h nr' nd' av) :
    bufPres buf b ∧ h = head + 1 ∧ av = avoid := by
  unfold clockBody at hc
  by_cases h1 : (getSlot buf (head % CELL_SIZE)).ref = 0
  · rw [if_pos h1] at hc
    by_cases h2 : (avoid && (getSlot buf (head % CELL_SIZE)).dirty) = true
    · rw [if_pos h2] at hc
      simp only [ClockStep.cont.injEq] at hc
      obtain ⟨rfl, rfl, -, -, rfl⟩ := hc
      exact ⟨bufPres_refl _, rfl, rfl⟩
    · rw [if_neg h2] at hc
      by_cases h3 : (getSlot buf (head % CELL_SIZE)).hits = 0
      · rw [if_pos h3] at hc
        exact absurd hc (by simp)
      · rw [if_neg h3] at hc
        simp only [ClockStep.cont.injEq] at hc
        obtain ⟨rfl, rfl, -, -, rfl⟩ := hc
        exact ⟨bufPres_set (by simp [pagePres]), rfl, rfl⟩
  · rw [if_neg h1] at hc
    by_cases h4 : CELL_SIZE ≤ nr + 1
    · rw [if_pos h4] at hc
      exact absurd hc (by simp)
    · rw [if_neg h4] at hc
      simp only [ClockStep.cont.injEq] at hc
      obtain ⟨rfl, rfl, -, -, rfl⟩ := hc
      exact ⟨bufPres_refl _, rfl, rfl⟩

theorem clockBody_allRef {buf : List Page} {head nr nd : Nat} {avoid : Bool}
    {b : List Page} {h : Nat}
    (hc : clockBody buf head nr nd avoid = .ret (.allRef b h)) :
    b = buf ∧ h = head ∧ (getSlot buf (head % CELL_SIZE)).ref ≠ 0 := by
  unfold clockBody at hc
  by_cases h1 : (getSlot buf (head % CELL_SIZE)).ref = 0
  · rw [if_pos h1] at hc
    by_cases h2 : (avoid && (getSlot buf (head % CELL_SIZE)).dirty) = true
    · rw [if_pos h2] at hc; exact absurd hc (by simp)
    · rw [if_neg h2] at hc
      by_cases h3 : (getSlot buf (head % CELL_SIZE)).hits = 0
      · rw [if_pos h3] at hc; exact absurd hc (by simp)
      · rw [if_neg h3] at hc; exact absurd hc (by simp)
  · rw [if_neg h1] at hc
    by_cases h4 : CELL_SIZE ≤ nr + 1
    · rw [if_pos h4] at hc
      simp only [ClockStep.ret.injEq, ClockResult.allRef.injEq] at hc
      exact ⟨hc.1.symm, hc.2.symm, h1⟩
    · rw [if_neg h4] at hc; exact absurd hc (by simp)

theorem clockBody_evicted {buf : List Page} {head nr nd : Nat} {avoid : Bool}
    {sel : Page} {i : Nat} {a : Bool} {b : List Page} {h : Nat}
    (hc : clockBody buf head nr nd avoid = .ret (.evicted sel i a b h)) :
    sel = getSlot buf (head % CELL_SIZE) ∧ i = head % CELL_SIZE ∧ a = avoid ∧
    b = setSlot buf i { sel with dataReady := false, hits := 0 } ∧
    sel.ref = 0 ∧ sel.hits = 0 ∧ (sel.dirty = true → a = false) ∧ h = head := by
  unfold clockBody at hc
  by_cases h1 : (getSlot buf (head % CELL_SIZE)).ref = 0
  · rw [if_pos h1] at hc
    by_cases h2 : (avoid && (getSlot buf (head % CELL_SIZE)).dirty) = true
    · rw [if_pos h2] at hc; exact absurd hc (by simp)
    · rw [if_neg h2] at hc
      by_cases h3 : (getSlot buf (head % CELL_SIZE)).hits = 0
      · rw [if_pos h3] at hc
        simp only [ClockStep.ret.injEq, ClockResult.evicted.injEq] at hc
        obtain ⟨rfl, rfl, rfl, rfl, rfl⟩ := hc
        refine ⟨rfl, rfl, rfl, rfl, h1, h3, ?_, rfl⟩
        intro hd
        cases avoid with
        | false => rfl
        | true => simp [hd] at h2
      · rw [if_neg h3] at hc; exact absurd hc (by simp)
  · rw [if_neg h1] at hc
    by_cases h4 : CELL_SIZE ≤ nr + 1
    · rw [if_pos h4] at hc; exact absurd hc (by simp)
    · rw [if_neg h4] at hc; exact absurd hc (by simp)

theorem clockLoop_evicted : ∀ (fuel : Nat) (buf : List Page)
    (head nr nd : Nat) (avoid : Bool) (sel : Page) (i : Nat) (a : Bool)
    (b : List Page) (h : Nat),
    clockLoop fuel buf head nr nd avoid = .evicted sel i a b h →
    sel.ref = 0 ∧ sel.hits = 0 ∧ (sel.dirty = true → a = false) ∧
    pagePres (getSlot buf i) sel ∧ bufPres buf b ∧ i = h % CELL_SIZE ∧
    (i < buf.length → getSlot b i = { sel with dataReady := false, hits := 0 }) := by
  intro fuel
  induction fuel with
  | zero => intro buf head nr nd avoid sel i a b h hc; simp [clockLoop] at hc
  | succ n ih =>
    intro buf head nr nd avoid sel i a b h hc
    rw [clockLoop] at hc
    cases hstep : (if CELL_SIZE ≤ nd + nr then clockBody buf head 0 0 false
        else clockBody buf head nr nd avoid) with
    | ret r =>
      rw [hstep] at hc
      have hc2 : r = ClockResult.evicted sel i a b h := hc
      subst hc2
      have hbody : ∃ nrx ndx avx, clockBody buf head nrx ndx avx
          = .ret (.evicted sel i a b h) := by
        by_cases hcond : CELL_SIZE ≤ nd + nr
        · rw [if_pos hcond] at hstep; exact ⟨0, 0, false, hstep⟩
        · rw [if_neg hcond] at hstep; exact ⟨nr, nd, avoid, hstep⟩
      obtain ⟨nrx, ndx, avx, hb⟩ := hbody
      obtain ⟨hsel, hi, ha, hbuf, hr, hh, hd, hhd⟩ := clockBody_evicted hb
      subst hsel hi ha hbuf hhd
      refine ⟨hr, hh, hd, pagePres_refl _, bufPres_set (by simp [pagePres]), rfl, ?_⟩
      intro hlt
      exact getSlot_set_self _ hlt
    | cont b1 h1 nr1 nd1 av1 =>
      rw [hstep] at hc
      have hbody : ∃ nrx ndx avx, clockBody buf head nrx ndx avx
          = .cont b1 h1 nr1 nd1 av1 := by
        by_cases hcond : CELL_SIZE ≤ nd + nr
        · rw [if_pos hcond] at hstep; exact ⟨0, 0, false, hstep⟩
        · rw [if_neg hcond] at hstep; exact ⟨nr, nd, avoid, hstep⟩
      obtain ⟨nrx, ndx, avx, hb⟩ := hbody
      have hc2 : clockLoop n b1 h1 nr1 nd1 av1 = ClockResult.evicted sel i a b h := hc
      obtain ⟨hpres, _, _⟩ := clockBody_cont hb
      obtain ⟨hr, hh, hd, hp, hb2, hih, hslot⟩ := ih b1 h1 nr1 nd1 av1 sel i a b h hc2
      refine ⟨hr, hh, hd, pagePres_trans (hpres.2 i) hp,
        bufPres_trans hpres hb2, hih, ?_⟩
      intro hlt
      exact hslot (by rw [hpres.1]; exact hlt)

theorem clockLoop_allRef : ∀ (fuel : Nat) (buf : List Page)
    (head nr nd : Nat) (avoid : Bool) (b : List Page) (h : Nat),
    clockLoop fuel buf head nr nd avoid = .allRef b h →
    bufPres buf b ∧ (getSlot buf (h % CELL_SIZE)).ref ≠ 0 := by
  intro fuel
  induction fuel with
  | zero => intro buf head nr nd avoid b h hc; simp [clockLoop] at hc
  | succ n ih =>
    intro buf head nr nd avoid b h hc
    rw [clockLoop] at hc
    cases hstep : (if CELL_SIZE ≤ nd + nr then clockBody buf head 0 0 false
        else clockBody buf head nr nd avoid) with
    | ret r =>
      rw [hstep] at hc
      have hc2 : r = ClockResult.allRef b h := hc
      subst hc2
      have hbody : ∃ nrx ndx avx, clockBody buf head nrx ndx avx
          = .ret (.allRef b h) := by
        by_cases hcond : CELL_SIZE ≤ nd + nr
        · rw [if_pos hcond] at hstep; exact ⟨0, 0, false, hstep⟩
        · rw [if_neg hcond] at hstep; exact ⟨nr, nd, avoid, hstep⟩
      obtain ⟨nrx, ndx, avx, hb⟩ := hbody
      obtain ⟨hbuf, hh, hr⟩ := clockBody_allRef hb
      subst hbuf hh
      exact ⟨bufPres_refl _, hr⟩
    | cont b1 h1 nr1 nd1 av1 =>
      rw [hstep] at hc
      have hbody : ∃ nrx ndx avx, clockBody buf head nrx ndx avx
          = .cont b1 h1 nr1 nd1 av1 := by
        by_cases hcond : CELL_SIZE ≤ nd + nr
        · rw [if_pos hcond] at hstep; exact ⟨0, 0, false, hstep⟩
        · rw [if_neg hcond] at hstep; exact ⟨nr, nd, avoid, hstep⟩
      obtain ⟨nrx, ndx, avx, hb⟩ := hbody
      have hc2 : clockLoop n b1 h1 nr1 nd1 av1 = ClockResult.allRef b h := hc
      obtain ⟨hpres, _, _⟩ := clockBody_cont hb
      obtain ⟨hb2, hr⟩ := ih b1 h1 nr1 nd1 av1 b h hc2
      refine ⟨bufPres_trans hpres hb2, ?_⟩
      have heq := (hpres.2 (h % CELL_SIZE)).2.2.2.2.2
      rw [← heq]
      exact hr

theorem clockLoop_all_referenced : ∀ (fuel nr : Nat),
    nr + 1 ≤ CELL_SIZE → CELL_SIZE ≤ fuel + nr →
    ∀ (buf : List Page) (head : Nat) (avoid : Bool),
    (∀ j, j < CELL_SIZE → (getSlot buf j).ref ≠ 0) →
    ∃ h, clockLoop fuel buf head nr 0 avoid = .allRef buf h := by
  intro fuel
  induction fuel with
  | zero => intro nr h1 h2; omega
  | succ n ih =>
    intro nr h1 h2 buf head avoid hall
    have hcond : ¬ (CELL_SIZE ≤ 0 + nr) := by omega
    have href : (getSlot buf (head % CELL_SIZE)).ref ≠ 0 :=
      hall _ (Nat.mod_lt _ (by norm_num [CELL_SIZE]))
    by_cases hfull : CELL_SIZE ≤ nr + 1
    · refine ⟨head, ?_⟩
      rw [clockLoop, if_neg hcond, clockBody, if_neg href, if_pos hfull]
    · obtain ⟨h, hres⟩ := ih (nr + 1) (by omega) (by omega) buf (head + 1) avoid hall
      refine ⟨h, ?_⟩
      rw [clockLoop, if_neg hcond, clockBody, if_neg href, if_neg hfull]
      exact hres

/-- C7 counterexample: the claim fails on the code in two places.  First,
`clock_eviction_policy::evict_page` can return `NULL` (the all-referenced
signal) even though a slot with zero refcount exists: in `c7bufA` slot 0 is
unreferenced, yet starting the hand at 1 the loop counts the 15 pinned
slots, resets slot 0's hits on the way past it, and then reaches
`num_referenced == CELL_SIZE` on the pinned slots alone — so "returns None
exactly when all CELL_SIZE slots have non-zero refcount" is false.  Second,
a surviving candidate's hits are reset to 0 (`reset_hits`,
src/associative_cache.cpp:406), not decremented: slot 0 of `c7bufB` has 3
hits and one pass over it leaves 0, not 2. -/
theorem C7_counterexample :
    (clockLoop 100 c7bufA 1 0 0 true
        = .allRef (setSlot c7bufA 0 { c7pageA with hits := 0 }) 17 ∧
      (getSlot c7bufA 0).ref = 0) ∧
    (clockBody c7bufB 0 0 0 true
        = .cont (setSlot c7bufB 0 { c7pageB with hits := 0 }) 1 0 0 true ∧
      (getSlot c7bufB 0).hits = 3 ∧
      (getSlot (setSlot c7bufB 0 { c7pageB with hits := 0 }) 0).hits = 0) := by
  exact ⟨⟨by decide, by decide⟩, by decide, by decide, by decide⟩

/-- C7 (amended): for every bucket state, CLOCK's `evict_page` (1) only ever
selects a page with zero refcount and zero hits, and if the selected page is
dirty the `avoid_dirty` first-pass flag had already been cleared (dirty
pages are avoided while the flag holds); the loop changes nothing but
`hits`/`data_ready` of the surviving pages; (2) if it returns `NULL`
(all-referenced signal), then at least one slot holds a referenced page —
but not necessarily all of them; (3) whenever all `CELL_SIZE` slots are
referenced, it does return `NULL` (given at least `CELL_SIZE` loop
iterations); and (4) one pass over a surviving unreferenced candidate with
non-zero hits resets its hits to 0 (rather than decrementing them) and
advances the hand. -/
theorem C7_clock_evict_spec :
    (∀ fuel buf head nr nd avoid sel i a b h,
      clockLoop fuel buf head nr nd avoid = .evicted sel i a b h →
      sel.ref = 0 ∧ sel.hits = 0 ∧ (sel.dirty = true → a = false) ∧
      pagePres (getSlot buf i) sel ∧ bufPres buf b) ∧
    (∀ fuel buf head nr nd avoid b h,
      clockLoop fuel buf head nr nd avoid = .allRef b h →
      ∃ j, j < CELL_SIZE ∧ (getSlot buf j).ref ≠ 0) ∧
    (∀ fuel buf head avoid,
      CELL_SIZE ≤ fuel → (∀ j, j < CELL_SIZE → (getSlot buf j).ref ≠ 0) →
      ∃ h, clockLoop fuel buf head 0 0 avoid = .allRef buf h) ∧
    (∀ buf head nr nd avoid,
      (getSlot buf (head % CELL_SIZE)).ref = 0 →
      (avoid && (getSlot buf (head % CELL_SIZE)).dirty) = false →
      (getSlot buf (head % CELL_SIZE)).hits ≠ 0 →
      clockBody buf head nr nd avoid
        = .cont (setSlot buf (head % CELL_SIZE)
            { getSlot buf (head % CELL_SIZE) with hits := 0 })
            (head + 1) nr nd avoid) := by
  refine ⟨?_, ?_, ?_, ?_⟩
  · intro fuel buf head nr nd avoid sel i a b h hc
    obtain ⟨h1, h2, h3, h4, h5, _⟩ := clockLoop_evicted fuel buf head nr nd avoid sel i a b h hc
    exact ⟨h1, h2, h3, h4, h5⟩
  · intro fuel buf head nr nd avoid b h hc
    obtain ⟨_, hr⟩ := clockLoop_allRef fuel buf head nr nd avoid b h hc
    exact ⟨h % CELL_SIZE, Nat.mod_lt _ (by norm_num [CELL_SIZE]), hr⟩
  · intro fuel buf head avoid hfuel hall
    exact clockLoop_all_referenced fuel 0 (by norm_num [CELL_SIZE]) (by omega)
      buf head avoid hall
  · intro buf head nr nd avoid h1 h2 h3
    unfold clockBody
    rw [if_pos h1, if_neg (by simp [h2]), if_neg h3]

/-- C7 witness: the amended theorem applied at concrete buckets, discharging
each hypothesis: an eviction run on a bucket of fresh pages, an
all-referenced run on `c7bufA`, the all-pinned bucket `c7ref16`, and one
hits-resetting pass on `c7bufB`. -/
theorem C7_clock_evict_spec_witness :
    (freshPage.ref = 0 ∧ freshPage.hits = 0 ∧ (freshPage.dirty = true → true = false) ∧
      pagePres (getSlot c7fresh16 0) freshPage ∧ bufPres c7fresh16 c7fresh16) ∧
    (∃ j, j < CELL_SIZE ∧ (getSlot c7bufA j).ref ≠ 0) ∧
    (∃ h, clockLoop 16 c7ref16 0 0 0 true = .allRef c7ref16 h) ∧
    clockBody c7bufB 0 0 0 true
      = .cont (setSlot c7bufB 0 { c7pageB with hits := 0 }) 1 0 0 true := by
  refine ⟨?_, ?_, ?_, ?_⟩
  · exact C7_clock_evict_spec.1 100 c7fresh16 0 0 0 true freshPage 0 true c7fresh16 0
      (by decide)
  · exact C7_clock_evict_spec.2.1 100 c7bufA 1 0 0 true
      (setSlot c7bufA 0 { c7pageA with hits := 0 }) 17 (by decide)
  · exact C7_clock_evict_spec.2.2.1 16 c7ref16 0 true (by norm_num [CELL_SIZE]) (by decide)
  · exact C7_clock_evict_spec.2.2.2 c7bufB 0 0 0 true (by decide) (by decide) (by decide)

theorem findSlot_some {pages : List Page} {off : Int} {i : Nat}
    (h : findSlot pages off = some i) :
    i < pages.length ∧ (getSlot pages i).offset = off := by
  unfold findSlot at h
  rw [List.findIdx?_eq_some_iff_findIdx_eq] at h
  obtain ⟨hlt, hidx⟩ := h
  refine ⟨hlt, ?_⟩
  have hp : ∀ (n : Nat) (hn : n < pages.length),
      n = List.findIdx (fun p : Page => p.offset == off) pages →
      ((pages.get ⟨n, hn⟩).offset == off) = true := by
    intro n hn he
    subst he
    exact List.findIdx_getElem (w := hn)
  have hp2 := hp i hlt hidx.symm
  have hgs : getSlot pages i = pages.get ⟨i, hlt⟩ := by
    simp [getSlot, List.getD_eq_getElem?_getD, List.getElem?_eq_getElem hlt]
  rw [hgs]
  simpa using hp2

theorem findSlot_none {pages : List Page} {off : Int}
    (h : findSlot pages off = none) :
    ∀ j, j < pages.length → (getSlot pages j).offset ≠ off := by
  unfold findSlot at h
  rw [List.findIdx?_eq_none_iff] at h
  intro j hj
  have := h pages[j] (List.getElem_mem hj)
  simp only [beq_eq_false_iff_ne, ne_eq] at this
  rw [getSlot, List.getD_eq_getElem?_getD, List.getElem?_eq_getElem hj]
  exact this

theorem scaleDown_length (b : List Page) : (scaleDownHits b).length = b.length := by
  simp [scaleDownHits]

theorem scaleDown_getSlot (b : List Page) (j : Nat) (h : j < b.length) :
    getSlot (scaleDownHits b) j = { getSlot b j with hits := (getSlot b j).hits / 2 } := by
  simp [scaleDownHits, getSlot, List.getD_eq_getElem?_getD, List.getElem?_eq_getElem h,
    List.getElem?_eq_getElem (by simpa using h : j < (b.map fun p => { p with hits := p.hits / 2 }).length)]

theorem getSlot_oob {b : List Page} {j : Nat} (h : b.length ≤ j) :
    getSlot b j = freshPage := by
  rw [getSlot, List.getD_eq_getElem?_getD, List.getElem?_eq_none h]
  rfl

theorem cellEvict_spec {c : Cell} {k : Nat} {c1 : Cell}
    (hev : cellEvict c = some (k, c1)) :
    k < CELL_SIZE ∧
    c1.pages.length = c.pages.length ∧
    bufPres c.pages c1.pages ∧
    (getSlot c.pages k).ref = 0 ∧
    (k < c.pages.length →
      getSlot c1.pages k = { getSlot c.pages k with dataReady := false, hits := 0 }) := by
  unfold cellEvict at hev
  cases hcl : clockLoop 100 c.pages c.clockHead 0 0 true with
  | evicted sel i a buf h =>
    rw [hcl] at hev
    simp only [Option.some.injEq, Prod.mk.injEq] at hev
    obtain ⟨rfl, rfl⟩ := hev
    obtain ⟨hr, hh, hd, hp, hb, hi, hslot⟩ :=
      clockLoop_evicted 100 c.pages c.clockHead 0 0 true sel i a buf h hcl
    refine ⟨hi ▸ Nat.mod_lt _ (by norm_num [CELL_SIZE]), hb.1, hb, ?_, ?_⟩
    · rw [← hp.2.2.2.2.2]; exact hr
    · intro hlt
      rw [hslot hlt]
      ext
      · exact hp.1
      · exact hp.2.1
      · rfl
      · exact hp.2.2.1
      · exact hp.2.2.2.1
      · exact hp.2.2.2.2.1
      · rfl
      · exact hp.2.2.2.2.2
  | allRef buf h => rw [hcl] at hev; exact absurd hev (by simp)
  | outOfFuel buf h => rw [hcl] at hev; exact absurd hev (by simp)

theorem flip_offset (p : Page) : (flipOldDirty p).offset = p.offset := by
  unfold flipOldDirty; split <;> rfl

theorem flip_ref (p : Page) : (flipOldDirty p).ref = p.ref := by
  unfold flipOldDirty; split <;> rfl

theorem flip_data (p : Page) : (flipOldDirty p).data = p.data := by
  unfold flipOldDirty; split <;> rfl

theorem flip_hits (p : Page) : (flipOldDirty p).hits = p.hits := by
  unfold flipOldDirty; split <;> rfl

theorem flip_of_dirty {p : Page} (h1 : p.dirty = true) (h2 : p.oldDirty = false) :
    (flipOldDirty p).dirty = false ∧ (flipOldDirty p).oldDirty = true := by
  unfold flipOldDirty
  rw [if_pos (by simp [h1, h2])]
  exact ⟨rfl, rfl⟩

theorem flip_of_clean {p : Page} (h : p.dirty = false) :
    flipOldDirty p = p := by
  unfold flipOldDirty
  rw [if_neg (by simp [h])]

theorem eqExceptHits_pageHit {p q : Page} (h : eqExceptHits p q) :
    eqExceptHits p (pageHit q) := by
  simpa [pageHit, eqExceptHits] using h

theorem scaledAfterWrite_spec (ps : List Page) (k : Nat) (w : Page)
    (hk : k < ps.length) :
    (scaledAfterWrite ps k w).length = ps.length ∧
    eqExceptHits w (getSlot (scaledAfterWrite ps k w) k) ∧
    (∀ j, j ≠ k →
      eqExceptHits (getSlot ps j) (getSlot (scaledAfterWrite ps k w) j)) := by
  unfold scaledAfterWrite
  by_cases h255 : w.hits = 255
  · rw [if_pos h255]
    refine ⟨by simp [setSlot, scaleDown_length], ?_, ?_⟩
    · rw [scaleDown_getSlot _ _ (by simpa [setSlot] using hk), getSlot_set_self w hk]
      simp [eqExceptHits]
    · intro j hj
      by_cases hjl : j < ps.length
      · rw [scaleDown_getSlot _ _ (by simpa [setSlot] using hjl),
          getSlot_set_ne _ (fun he => hj he.symm)]
        simp [eqExceptHits]
      · rw [getSlot_oob (b := scaleDownHits (setSlot ps k w))
            (by rw [scaleDown_length]; simp [setSlot]; omega),
          getSlot_oob (by omega : ps.length ≤ j)]
        simp [eqExceptHits]
  · rw [if_neg h255]
    refine ⟨by simp [setSlot], ?_, ?_⟩
    · rw [getSlot_set_self w hk]
      simp [eqExceptHits]
    · intro j hj
      rw [getSlot_set_ne _ (fun he => hj he.symm)]
      simp [eqExceptHits]

theorem writeSlotScaled_spec (ps : List Page) (k : Nat) (w : Page)
    (hk : k < ps.length) :
    (writeSlotScaled ps k w).length = ps.length ∧
    eqExceptHits w (getSlot (writeSlotScaled ps k w) k) ∧
    (∀ j, j ≠ k →
      eqExceptHits (getSlot ps j) (getSlot (writeSlotScaled ps k w) j)) := by
  obtain ⟨hl, hs, ho⟩ := scaledAfterWrite_spec ps k w hk
  unfold writeSlotScaled
  have hk2 : k < (scaledAfterWrite ps k w).length := by rw [hl]; exact hk
  refine ⟨by simp [setSlot, hl], ?_, ?_⟩
  · rw [getSlot_set_self _ hk2]
    exact eqExceptHits_pageHit hs
  · intro j hj
    rw [getSlot_set_ne _ (fun he => hj he.symm)]
    exact ho j hj

theorem admitV3_offset (v : Page) (off : Int) : (admitV3 v off).offset = off := rfl

theorem admitV3_ref (v : Page) (off : Int) : (admitV3 v off).ref = v.ref + 1 := by
  simp [admitV3, incRef, flip_ref]

theorem admitV3_data (v : Page) (off : Int) : (admitV3 v off).data = v.data := by
  simp [admitV3, incRef, flip_data]

theorem admitV3_of_dirty {v : Page} (off : Int) (h1 : v.dirty = true)
    (h2 : v.oldDirty = false) :
    (admitV3 v off).dirty = false ∧ (admitV3 v off).oldDirty = true := by
  have := flip_of_dirty h1 h2
  simpa [admitV3, incRef] using this

theorem admitV3_of_clean {v : Page} (off : Int) (h : v.dirty = false) :
    (admitV3 v off).dirty = false ∧ (admitV3 v off).oldDirty = v.oldDirty := by
  rw [admitV3, flip_of_clean h]
  exact ⟨h, rfl⟩

theorem admitPage_spec (c1 : Cell) (k : Nat) (off : Int)
    (hk : k < c1.pages.length) :
    (admitPage c1 k off).2
        = (if (getSlot c1.pages k).offset = PAGE_INVALID_OFFSET then -1
           else (getSlot c1.pages k).offset) ∧
    (admitPage c1 k off).1.pages.length = c1.pages.length ∧
    eqExceptHits (admitV3 (getSlot c1.pages k) off)
      (getSlot (admitPage c1 k off).1.pages k) ∧
    (∀ j, j ≠ k →
      eqExceptHits (getSlot c1.pages j) (getSlot (admitPage c1 k off).1.pages j)) := by
  obtain ⟨hl, hs, ho⟩ :=
    writeSlotScaled_spec c1.pages k (admitV3 (getSlot c1.pages k) off) hk
  refine ⟨?_, hl, hs, ho⟩
  show oldOffOf (flipOldDirty (getSlot c1.pages k)) = _
  unfold oldOffOf
  rw [flip_offset]

theorem hitPage_spec (c : Cell) (i : Nat) (hk : i < c.pages.length) :
    (hitPage c i).pages.length = c.pages.length ∧
    eqExceptHits (incRef (getSlot c.pages i)) (getSlot (hitPage c i).pages i) ∧
    (∀ j, j ≠ i →
      eqExceptHits (getSlot c.pages j) (getSlot (hitPage c i).pages j)) :=
  writeSlotScaled_spec c.pages i (incRef (getSlot c.pages i)) hk

/-- C1 counterexample: `search(off, old_off)` misses on `c1cell` and evicts
the clean page at slot 0 (offset 4096, `dirty = false`), yet returns
`old_off = 4096`, not `-1`: the code writes the victim's prior offset into
`old_off` whether or not the victim was dirty (src/associative_cache.cpp:
142-144), so the claim's "otherwise old_off is set to -1" — and the
inference that `old_off != -1` implies the evicted page was dirty — is
false. -/
theorem C1_counterexample :
    searchCellOld c1cell 8192 (-1) = some (0, c1cellAfter, 4096) ∧
    (getSlot c1cell.pages 0).dirty = false ∧ (4096 : Int) ≠ -1 := by
  exact ⟨by decide, by decide, by decide⟩

/-- C1 (amended): on a miss, `hash_cell::search(off, old_off)` flips a
Dirty, not-OldDirty victim to OldDirty, and writes the victim's prior
offset into `old_off` whenever that offset is not the invalid sentinel —
whether or not the victim was dirty; only a victim with the invalid
sentinel offset yields `old_off = -1`.  A caller observing
`old_off != -1` may conclude only that an initialized page was evicted,
not that it was dirty (the caller additionally checks the page's OldDirty
state before writing it back, src/libcache/global_cached_private.cpp:
919-957).  The victim has zero refcount, and the returned page carries the
new offset with refcount 1. -/
theorem C1_search_or_admit (c : Cell) (off v : Int) (k : Nat) (c' : Cell)
    (old : Int) (hlen : c.pages.length = CELL_SIZE)
    (hmiss : findSlot c.pages off = none)
    (hres : searchCellOld c off v = some (k, c', old)) :
    old = (if (getSlot c.pages k).offset = PAGE_INVALID_OFFSET then -1
           else (getSlot c.pages k).offset) ∧
    (getSlot c.pages k).ref = 0 ∧
    (getSlot c'.pages k).offset = off ∧
    (getSlot c'.pages k).ref = 1 ∧
    ((getSlot c.pages k).dirty = true → (getSlot c.pages k).oldDirty = false →
      (getSlot c'.pages k).dirty = false ∧ (getSlot c'.pages k).oldDirty = true) ∧
    ((getSlot c.pages k).dirty = false →
      (getSlot c'.pages k).dirty = false ∧
      (getSlot c'.pages k).oldDirty = (getSlot c.pages k).oldDirty) := by
  unfold searchCellOld at hres
  rw [hmiss] at hres
  cases hev : cellEvict c with
  | none => rw [hev] at hres; exact absurd hres (by simp)
  | some kc =>
    obtain ⟨k0, c1⟩ := kc
    rw [hev] at hres
    simp only [Option.some.injEq, Prod.mk.injEq] at hres
    obtain ⟨rfl, hc', hold⟩ := hres
    obtain ⟨hkc, hlen1, hbp, href0, hslot⟩ := cellEvict_spec hev
    have hkclen : k0 < c.pages.length := by rw [hlen]; exact hkc
    have hk1 : k0 < c1.pages.length := by rw [hlen1]; exact hkclen
    have hw1 : getSlot c1.pages k0
        = { getSlot c.pages k0 with dataReady := false, hits := 0 } := hslot hkclen
    obtain ⟨ho, hl2, hs, hoth⟩ := admitPage_spec c1 k0 off hk1
    obtain ⟨hso, hsd, hsr, hsdi, hsod, hsip, hsref⟩ := hs
    subst hc' hold
    refine ⟨?_, href0, ?_, ?_, ?_, ?_⟩
    · rw [ho, hw1]
    · rw [hso, admitV3_offset]
    · rw [hsref, admitV3_ref, hw1]
      simp [href0]
    · intro hd hod
      have h1 : (getSlot c1.pages k0).dirty = true := by rw [hw1]; exact hd
      have h2 : (getSlot c1.pages k0).oldDirty = false := by rw [hw1]; exact hod
      obtain ⟨ha, hb⟩ := admitV3_of_dirty off h1 h2
      exact ⟨by rw [hsdi, ha], by rw [hsod, hb]⟩
    · intro hd
      have h1 : (getSlot c1.pages k0).dirty = false := by rw [hw1]; exact hd
      obtain ⟨ha, hb⟩ := admitV3_of_clean off h1
      refine ⟨by rw [hsdi, ha], ?_⟩
      rw [hsod, hb, hw1]

/-- C1 witness: the amended theorem at the concrete bucket `c1cell` with a
clean victim, discharging the length, miss and result hypotheses. -/
theorem C1_search_or_admit_witness :
    (4096 : Int) = (if (getSlot c1cell.pages 0).offset = PAGE_INVALID_OFFSET
        then -1 else (getSlot c1cell.pages 0).offset) ∧
    (getSlot c1cell.pages 0).ref = 0 ∧
    (getSlot c1cellAfter.pages 0).offset = 8192 ∧
    (getSlot c1cellAfter.pages 0).ref = 1 ∧
    ((getSlot c1cell.pages 0).dirty = true → (getSlot c1cell.pages 0).oldDirty = false →
      (getSlot c1cellAfter.pages 0).dirty = false ∧
      (getSlot c1cellAfter.pages 0).oldDirty = true) ∧
    ((getSlot c1cell.pages 0).dirty = false →
      (getSlot c1cellAfter.pages 0).dirty = false ∧
      (getSlot c1cellAfter.pages 0).oldDirty = (getSlot c1cell.pages 0).oldDirty) :=
  C1_search_or_admit c1cell 8192 (-1) 0 c1cellAfter 4096 (by decide) (by decide)
    (by decide)

/-- C9 (confirmed): on a cache hit, `hash_cell::search(off, old_off)`
returns the `old_off` value exactly as the caller passed it in — the code
never writes the reference parameter on the hit path
(src/associative_cache.cpp:130-135, 162-163), so the `-1` that callers use
to detect a hit comes solely from the caller's own initialization (for
example `off_t old_off = -1` in `global_cached_io::access`,
src/libcache/global_cached_private.cpp:862, and in `preload`,
src/libcache/global_cached_private.cpp:1073). -/
theorem C9_search_hit_preserves_old (c : Cell) (off v : Int) (i : Nat)
    (hhit : findSlot c.pages off = some i) :
    searchCellOld c off v = some (i, hitPage c i, v) := by
  unfold searchCellOld
  rw [hhit]

/-- C9 witness: a hit on `c1cell` at offset 4096 with the caller's
`old_off` set to the arbitrary value 77, which comes back unmodified. -/
theorem C9_search_hit_preserves_old_witness :
    searchCellOld c1cell 4096 77 = some (0, hitPage c1cell 0, 77) :=
  C9_search_hit_preserves_old c1cell 4096 77 0 (by decide)

theorem setCellD_shape (st : DirState) (i : Nat) (c : Cell) :
    (setCellD st i c).level = st.level ∧ (setCellD st i c).split = st.split ∧
    (setCellD st i c).initN = st.initN ∧
    (setCellD st i c).expanding = st.expanding ∧
    (setCellD st i c).groups.length = st.groups.length ∧
    (setCellD st i c).budget = st.budget := by
  unfold setCellD
  exact ⟨rfl, rfl, rfl, rfl, by simp, rfl⟩

theorem rehashStep_shape (st : DirState) (size : Nat) :
    (rehashStep st size).level = st.level ∧ (rehashStep st size).split = st.split ∧
    (rehashStep st size).initN = st.initN ∧
    (rehashStep st size).expanding = st.expanding ∧
    (rehashStep st size).groups.length = st.groups.length := by
  unfold rehashStep
  obtain ⟨a1, a2, a3, a4, a5, a6⟩ := setCellD_shape st st.split
    (rehashCells (hash1 st) (st.split : Int) ((st.split + size : Nat) : Int)
      (getCellD st st.split) (getCellD st (st.split + size))).1
  obtain ⟨b1, b2, b3, b4, b5, b6⟩ := setCellD_shape
    (setCellD st st.split
      (rehashCells (hash1 st) (st.split : Int) ((st.split + size : Nat) : Int)
        (getCellD st st.split) (getCellD st (st.split + size))).1)
    (st.split + size)
    (rehashCells (hash1 st) (st.split : Int) ((st.split + size : Nat) : Int)
      (getCellD st st.split) (getCellD st (st.split + size))).2
  exact ⟨b1.trans a1, b2.trans a2, b3.trans a3, b4.trans a4, b5.trans a5⟩

theorem installGroups_spec (st : DirState) (need : Nat) :
    dirShapeEq st (installGroups st need).1 ∧
    groupsAppend st (installGroups st need).1 ∧
    ((installGroups st need).2 = false →
      (installGroups st need).1.groups.length = st.groups.length + need) ∧
    st.groups.length ≤ (installGroups st need).1.groups.length := by
  unfold installGroups
  refine ⟨⟨rfl, rfl, rfl, rfl⟩, ⟨_, rfl⟩, ?_, by simp⟩
  intro h
  simp only [decide_eq_false_iff_not, Nat.not_lt] at h
  have : min need (st.budget / (st.initN * CELL_SIZE)) = need :=
    Nat.le_antisymm (Nat.min_le_left _ _) h
  simp [this]

theorem expandIter_after_alloc (trigger size : Nat) (st st1 : DirState)
    (heq : expandIter trigger size st
        = (if (rehashStep st1 size).split + 1 = size then
            ({ rehashStep st1 size with
                split := 0,
                level := (rehashStep st1 size).level + 1 }, some .roundEnd)
           else
            ({ rehashStep st1 size with
                split := (rehashStep st1 size).split + 1 }, none)))
    (hshape : dirShapeEq st st1)
    (hidx : (st.split + size) / st.initN < st1.groups.length)
    (hmono : st.groups.length ≤ st1.groups.length) :
    (∃ st', expandIter trigger size st = (st', some .roundEnd) ∧
      st'.split = 0 ∧ st'.level = st.level + 1 ∧ st'.initN = st.initN ∧
      st'.expanding = st.expanding ∧ st.split + 1 = size ∧
      (st.split + size) / st.initN < st'.groups.length ∧
      st.groups.length ≤ st'.groups.length) ∨
    (∃ st', expandIter trigger size st = (st', none) ∧
      st'.split = st.split + 1 ∧ st'.level = st.level ∧ st'.initN = st.initN ∧
      st'.expanding = st.expanding ∧ st.split + 1 ≠ size ∧
      (st.split + size) / st.initN < st'.groups.length ∧
      st.groups.length ≤ st'.groups.length) := by
  obtain ⟨s1, s2, s3, s4⟩ := hshape
  obtain ⟨r1, r2, r3, r4, r5⟩ := rehashStep_shape st1 size
  have hsp : (rehashStep st1 size).split = st.split := by rw [r2, s2]
  have hlv : (rehashStep st1 size).level = st.level := by rw [r1, s1]
  have hin : (rehashStep st1 size).initN = st.initN := by rw [r3, s3]
  have hex : (rehashStep st1 size).expanding = st.expanding := by rw [r4, s4]
  have hgr : (rehashStep st1 size).groups.length = st1.groups.length := r5
  by_cases hwrap : (rehashStep st1 size).split + 1 = size
  · left
    refine ⟨{ rehashStep st1 size with
        split := 0, level := (rehashStep st1 size).level + 1 },
      by rw [heq, if_pos hwrap], rfl, ?_, ?_, ?_, ?_, ?_, ?_⟩
    · show (rehashStep st1 size).level + 1 = st.level + 1
      rw [hlv]
    · exact hin
    · exact hex
    · rw [hsp] at hwrap; exact hwrap
    · show (st.split + size) / st.initN < (rehashStep st1 size).groups.length
      rw [hgr]; exact hidx
    · show st.groups.length ≤ (rehashStep st1 size).groups.length
      rw [hgr]; exact hmono
  · right
    refine ⟨{ rehashStep st1 size with
        split := (rehashStep st1 size).split + 1 },
      by rw [heq, if_neg hwrap], ?_, hlv, hin, hex, ?_, ?_, ?_⟩
    · show (rehashStep st1 size).split + 1 = st.split + 1
      rw [hsp]
    · rw [hsp] at hwrap; exact hwrap
    · show (st.split + size) / st.initN < (rehashStep st1 size).groups.length
      rw [hgr]; exact hidx
    · show st.groups.length ≤ (rehashStep st1 size).groups.length
      rw [hgr]; exact hmono

theorem expandIter_characterize (trigger size : Nat) (st : DirState) :
    (expandIter trigger size st = (st, some .trigCleared) ∧
      (getCellD st trigger).overflow = false) ∨
    (∃ st', expandIter trigger size st = (st', some .oom) ∧
      dirShapeEq st st' ∧ groupsAppend st st' ∧
      (getCellD st trigger).overflow = true) ∨
    (∃ st', expandIter trigger size st = (st', some .roundEnd) ∧
      st'.split = 0 ∧ st'.level = st.level + 1 ∧ st'.initN = st.initN ∧
      st'.expanding = st.expanding ∧ st.split + 1 = size ∧
      (st.split + size) / st.initN < st'.groups.length ∧
      st.groups.length ≤ st'.groups.length) ∨
    (∃ st', expandIter trigger size st = (st', none) ∧
      st'.split = st.split + 1 ∧ st'.level = st.level ∧ st'.initN = st.initN ∧
      st'.expanding = st.expanding ∧ st.split + 1 ≠ size ∧
      (st.split + size) / st.initN < st'.groups.length ∧
      st.groups.length ≤ st'.groups.length) := by
  by_cases hov : (getCellD st trigger).overflow = false
  · left
    exact ⟨by unfold expandIter; rw [if_pos hov], hov⟩
  · have hovt : (getCellD st trigger).overflow = true := by
      cases hcase : (getCellD st trigger).overflow
      · exact absurd hcase hov
      · rfl
    have hiter0 : expandIter trigger size st
        = (match (if st.groups.length ≤ (st.split + size) / st.initN then
                installGroups st ((st.split + size) / st.initN + 1 - st.groups.length)
              else (st, false)) with
           | (st1, true) => (st1, some .oom)
           | (st1, false) =>
             if (rehashStep st1 size).split + 1 = size then
               ({ rehashStep st1 size with
                   split := 0,
                   level := (rehashStep st1 size).level + 1 }, some .roundEnd)
             else
               ({ rehashStep st1 size with
                   split := (rehashStep st1 size).split + 1 }, none)) := by
      unfold expandIter
      rw [if_neg hov]
    by_cases halloc : st.groups.length ≤ (st.split + size) / st.initN
    · obtain ⟨hshape, happ, hfull, hmono⟩ := installGroups_spec st
        ((st.split + size) / st.initN + 1 - st.groups.length)
      cases hres : installGroups st
          ((st.split + size) / st.initN + 1 - st.groups.length) with
      | mk st1 b =>
        rw [hres] at hshape happ hfull hmono
        dsimp only at hshape happ hfull hmono
        cases b with
        | true =>
          right; left
          exact ⟨st1, by rw [hiter0, if_pos halloc, hres], hshape, happ, hovt⟩
        | false =>
          have heq : expandIter trigger size st
              = (if (rehashStep st1 size).split + 1 = size then
                  ({ rehashStep st1 size with
                      split := 0,
                      level := (rehashStep st1 size).level + 1 }, some .roundEnd)
                 else
                  ({ rehashStep st1 size with
                      split := (rehashStep st1 size).split + 1 }, none)) := by
            rw [hiter0, if_pos halloc, hres]
          have hidx : (st.split + size) / st.initN < st1.groups.length := by
            have := hfull rfl
            omega
          rcases expandIter_after_alloc trigger size st st1 heq hshape hidx hmono
            with h | h
          · right; right; left; exact h
          · right; right; right; exact h
    · have heq : expandIter trigger size st
          = (if (rehashStep st size).split + 1 = size then
              ({ rehashStep st size with
                  split := 0,
                  level := (rehashStep st size).level + 1 }, some .roundEnd)
             else
              ({ rehashStep st size with
                  split := (rehashStep st size).split + 1 }, none)) := by
        rw [hiter0, if_neg halloc]
      rcases expandIter_after_alloc trigger size st st heq ⟨rfl, rfl, rfl, rfl⟩
        (Nat.lt_of_not_le halloc) le_rfl with h | h
      · right; right; left; exact h
      · right; right; right; exact h
theorem groupsAppend_length {st st' : DirState} (h : groupsAppend st st') :
    st.groups.length ≤ st'.groups.length := by
  obtain ⟨kk, hk⟩ := h
  rw [hk]
  simp

theorem expandLoop_spec (trigger size : Nat) : ∀ (fuel : Nat) (st : DirState),
    st.level ≤ (expandLoop trigger size fuel st).1.level ∧
    (expandLoop trigger size fuel st).1.initN = st.initN ∧
    (expandLoop trigger size fuel st).1.expanding = st.expanding ∧
    st.groups.length ≤ (expandLoop trigger size fuel st).1.groups.length ∧
    ((expandLoop trigger size fuel st).2 = .trigCleared →
      (getCellD (expandLoop trigger size fuel st).1 trigger).overflow = false) := by
  intro fuel
  induction fuel with
  | zero =>
    intro st
    refine ⟨le_rfl, rfl, rfl, le_rfl, ?_⟩
    intro h
    exact absurd h (by simp [expandLoop])
  | succ n ih =>
    intro st
    rw [expandLoop]
    rcases expandIter_characterize trigger size st with
      ⟨heq, hov⟩ | ⟨st', heq, hsh, happ, _⟩ |
      ⟨st', heq, h1, h2, h3, h4, h5, h6, h7⟩ |
      ⟨st', heq, h1, h2, h3, h4, h5, h6, h7⟩
    · rw [heq]
      exact ⟨le_rfl, rfl, rfl, le_rfl, fun _ => hov⟩
    · rw [heq]
      exact ⟨le_of_eq hsh.1.symm, hsh.2.2.1, hsh.2.2.2,
        groupsAppend_length happ, fun h => by simp at h⟩
    · rw [heq]
      refine ⟨by rw [h2]; omega, h3, h4, h7, fun h => by simp at h⟩
    · rw [heq]
      obtain ⟨i1, i2, i3, i4, i5⟩ := ih st'
      refine ⟨?_, by rw [i2, h3], by rw [i3, h4], le_trans h7 i4, i5⟩
      rw [← h2]
      exact i1

theorem expandLoop_inv (trigger size : Nat) : ∀ (fuel : Nat) (st : DirState),
    1 ≤ st.initN → size = 2 ^ st.level * st.initN →
    size + st.split ≤ st.groups.length * st.initN →
    1 ≤ (expandLoop trigger size fuel st).1.initN ∧
    2 ^ (expandLoop trigger size fuel st).1.level
        * (expandLoop trigger size fuel st).1.initN
        + (expandLoop trigger size fuel st).1.split
      ≤ (expandLoop trigger size fuel st).1.groups.length
        * (expandLoop trigger size fuel st).1.initN := by
  intro fuel
  induction fuel with
  | zero =>
    intro st h1 h2 h3
    refine ⟨h1, ?_⟩
    show 2 ^ st.level * st.initN + st.split ≤ st.groups.length * st.initN
    rw [← h2]
    exact h3
  | succ n ih =>
    intro st h1 h2 h3
    rw [expandLoop]
    rcases expandIter_characterize trigger size st with
      ⟨heq, hov⟩ | ⟨st', heq, hsh, happ, _⟩ |
      ⟨st', heq, g1, g2, g3, g4, g5, g6, g7⟩ |
      ⟨st', heq, g1, g2, g3, g4, g5, g6, g7⟩
    · rw [heq]
      refine ⟨h1, ?_⟩
      show 2 ^ st.level * st.initN + st.split ≤ st.groups.length * st.initN
      rw [← h2]
      exact h3
    · rw [heq]
      dsimp only
      obtain ⟨s1, s2, s3, s4⟩ := hsh
      have hlen := groupsAppend_length happ
      refine ⟨by rw [s3]; exact h1, ?_⟩
      rw [s1, s2, s3, ← h2]
      calc size + st.split ≤ st.groups.length * st.initN := h3
        _ ≤ st'.groups.length * st.initN := Nat.mul_le_mul_right _ hlen
    · rw [heq]
      dsimp only
      have hpos : 0 < st.initN := h1
      have ha : st.split + size < st.initN * ((st.split + size) / st.initN + 1) :=
        Nat.lt_mul_div_succ _ hpos
      have hb : st.initN * ((st.split + size) / st.initN + 1)
          ≤ st.initN * st'.groups.length := Nat.mul_le_mul_left _ g6
      have hc : st.initN * st'.groups.length = st'.groups.length * st.initN :=
        Nat.mul_comm _ _
      have h2s : 2 ^ (st.level + 1) * st.initN = size + size := by
        rw [h2, pow_succ]
        ring
      refine ⟨by rw [g3]; exact h1, ?_⟩
      rw [g1, g2, g3, h2s]
      omega
    · rw [heq]
      dsimp only
      have hpos : 0 < st.initN := h1
      have ha : st.split + size < st.initN * ((st.split + size) / st.initN + 1) :=
        Nat.lt_mul_div_succ _ hpos
      have hb : st.initN * ((st.split + size) / st.initN + 1)
          ≤ st.initN * st'.groups.length := Nat.mul_le_mul_left _ g6
      have hc : st.initN * st'.groups.length = st'.groups.length * st.initN :=
        Nat.mul_comm _ _
      refine ih st' (by rw [g3]; exact h1) (by rw [g2, g3]; exact h2) ?_
      rw [g1, g3]
      omega

theorem expandModel_spec (st : DirState) (trigger : Nat) :
    st.level ≤ (expandModel st trigger).1.level ∧
    (expandModel st trigger).1.initN = st.initN ∧
    st.groups.length ≤ (expandModel st trigger).1.groups.length ∧
    (1 ≤ st.initN →
      2 ^ st.level * st.initN + st.split ≤ st.groups.length * st.initN →
      1 ≤ (expandModel st trigger).1.initN ∧
      2 ^ (expandModel st trigger).1.level * (expandModel st trigger).1.initN
          + (expandModel st trigger).1.split
        ≤ (expandModel st trigger).1.groups.length
          * (expandModel st trigger).1.initN) := by
  unfold expandModel
  by_cases hexp : st.expanding
  · rw [if_pos hexp]
    exact ⟨le_rfl, rfl, le_rfl, fun h1 h3 => ⟨h1, h3⟩⟩
  · rw [if_neg hexp]
    obtain ⟨l1, l2, l3, l4, _⟩ := expandLoop_spec trigger
      (2 ^ st.level * st.initN) (2 ^ st.level * st.initN + 1)
      { st with expanding := true }
    cases hL : expandLoop trigger (2 ^ st.level * st.initN)
        (2 ^ st.level * st.initN + 1) { st with expanding := true } with
    | mk st2 k =>
      rw [hL] at l1 l2 l3 l4
      dsimp only at l1 l2 l3 l4
      have hinv := fun h1 h3 => expandLoop_inv trigger
        (2 ^ st.level * st.initN) (2 ^ st.level * st.initN + 1)
        { st with expanding := true } h1 rfl h3
      cases k with
      | oom =>
        refine ⟨l1, l2, l4, ?_⟩
        intro h1 h3
        have := hinv h1 h3
        rw [hL] at this
        exact this
      | trigCleared =>
        refine ⟨l1, l2, l4, ?_⟩
        intro h1 h3
        have := hinv h1 h3
        rw [hL] at this
        exact this
      | roundEnd =>
        refine ⟨l1, l2, l4, ?_⟩
        intro h1 h3
        have := hinv h1 h3
        rw [hL] at this
        exact this
      | fuelOut =>
        refine ⟨l1, l2, l4, ?_⟩
        intro h1 h3
        have := hinv h1 h3
        rw [hL] at this
        exact this

theorem reach_inv : ∀ st : DirState, Reach st →
    1 ≤ st.initN ∧
    2 ^ st.level * st.initN + st.split ≤ st.groups.length * st.initN := by
  intro st h
  induction h with
  | init initN budget h =>
    refine ⟨h, ?_⟩
    simp [initDirState]
  | expand st trigger h ih =>
    exact (expandModel_spec st trigger).2.2.2 ih.1 ih.2
  | mutate st st' h hlevel hsplit hinitN hgroups hexp ih =>
    rw [hlevel, hsplit, hinitN, hgroups]
    exact ih

/-- C8 (confirmed): in every reachable directory state (constructor state
and any sequence of expand calls, with page/flag mutations in between), the
total bucket count — the spec's `ncells`, which is the installed group
count times `init_ncells`, since the code's `ncells` counter counts groups
— satisfies `ncells ≥ 2^level · init_ncells + split`; `level` never
decreases across an expand call; and within the expand loop, each iteration
either advances `split` by exactly one at unchanged `level`, or resets
`split` to 0 exactly at the step where `level` increments (the round end),
while the other exits leave both unchanged. -/
theorem C8_linear_hashing_monotonicity :
    (∀ st : DirState, Reach st →
      2 ^ st.level * st.initN + st.split ≤ st.groups.length * st.initN) ∧
    (∀ (st : DirState) (trigger : Nat),
      st.level ≤ (expandModel st trigger).1.level) ∧
    (∀ (trigger size : Nat) (st st' : DirState),
      expandIter trigger size st = (st', none) →
      st'.split = st.split + 1 ∧ st'.level = st.level) ∧
    (∀ (trigger size : Nat) (st st' : DirState) (k : ExitKind),
      expandIter trigger size st = (st', some k) →
      (st'.split = 0 ∧ st'.level = st.level + 1 ∧ k = .roundEnd ∧
        st.split + 1 = size) ∨
      (st'.split = st.split ∧ st'.level = st.level)) := by
  refine ⟨?_, ?_, ?_, ?_⟩
  · intro st h
    exact (reach_inv st h).2
  · intro st trigger
    exact (expandModel_spec st trigger).1
  · intro trigger size st st' h
    rcases expandIter_characterize trigger size st with
      ⟨heq, _⟩ | ⟨s2, heq, _⟩ | ⟨s2, heq, _⟩ |
      ⟨s2, heq, g1, g2, g3, g4, g5, g6, g7⟩
    · rw [h] at heq
      simp at heq
    · rw [h] at heq
      simp at heq
    · rw [h] at heq
      simp at heq
    · rw [h] at heq
      simp only [Prod.mk.injEq] at heq
      obtain ⟨rfl, -⟩ := heq
      exact ⟨g1, g2⟩
  · intro trigger size st st' k h
    rcases expandIter_characterize trigger size st with
      ⟨heq, _⟩ | ⟨s2, heq, hsh, _⟩ | ⟨s2, heq, g1, g2, g3, g4, g5, g6, g7⟩ |
      ⟨s2, heq, _⟩
    · rw [h] at heq
      simp only [Prod.mk.injEq, Option.some.injEq] at heq
      obtain ⟨rfl, -⟩ := heq
      exact Or.inr ⟨rfl, rfl⟩
    · rw [h] at heq
      simp only [Prod.mk.injEq, Option.some.injEq] at heq
      obtain ⟨rfl, -⟩ := heq
      exact Or.inr ⟨hsh.2.1, hsh.1⟩
    · rw [h] at heq
      simp only [Prod.mk.injEq, Option.some.injEq] at heq
      obtain ⟨rfl, rfl⟩ := heq
      exact Or.inl ⟨g1, g2, rfl, g5⟩
    · rw [h] at heq
      simp at heq

/-- C8 witness: the invariant instantiated at a constructor state reached
through `Reach`, the per-iteration split/level characterization at the
concrete continuing state `c8stA`, and the exit characterization at the
out-of-memory state `c3st`. -/
theorem C8_linear_hashing_monotonicity_witness :
    (2 ^ (initDirState 2 5).level * (initDirState 2 5).initN
        + (initDirState 2 5).split
      ≤ (initDirState 2 5).groups.length * (initDirState 2 5).initN) ∧
    ((expandIter 0 2 c8stA).1.split = c8stA.split + 1 ∧
      (expandIter 0 2 c8stA).1.level = c8stA.level) ∧
    (((expandIter 0 1 c3st).1.split = 0 ∧
        (expandIter 0 1 c3st).1.level = c3st.level + 1 ∧
        ExitKind.oom = ExitKind.roundEnd ∧ c3st.split + 1 = 1) ∨
      ((expandIter 0 1 c3st).1.split = c3st.split ∧
        (expandIter 0 1 c3st).1.level = c3st.level)) := by
  refine ⟨?_, ?_, ?_⟩
  · exact C8_linear_hashing_monotonicity.1 (initDirState 2 5)
      (Reach.init 2 5 (by decide))
  · exact C8_linear_hashing_monotonicity.2.2.1 0 2 c8stA (expandIter 0 2 c8stA).1
      (Prod.ext rfl (by decide))
  · exact C8_linear_hashing_monotonicity.2.2.2 0 1 c3st (expandIter 0 1 c3st).1
      .oom (Prod.ext rfl (by decide))

/-- C3 counterexample: on `c3st` (empty memory reserve, overflowing
trigger) the expansion hits out-of-memory; `expand` returns `false` and the
directory is untouched, but the `TABLE_EXPANDING` flag is NOT cleared — the
early `return false` at src/associative_cache.cpp:553-554 skips the
`clear_flag(TABLE_EXPANDING)` at line 571, so the claim that "the
TABLE_EXPANDING flag is cleared so a later lookup can trigger expansion
again" is false: every later expand call sees the flag set and returns
immediately. -/
theorem C3_counterexample :
    (expandModel c3st 0).2 = false ∧
    (expandModel c3st 0).1.expanding = true ∧
    (expandModel c3st 0).1.groups = c3st.groups ∧
    (expandModel c3st 0).1.level = c3st.level ∧
    (expandModel c3st 0).1.split = c3st.split ∧
    (expandModel (expandModel c3st 0).1 0)
      = ((expandModel c3st 0).1, false) := by
  exact ⟨by decide, by decide, by decide, by decide, by decide, by decide⟩

/-- C3 (amended): if `associative_cache::expand` hits an allocation failure
while creating new bucket groups, the failing iteration aborts cleanly in
the sense that `level` and `split` are unchanged and the directory is
extended only by the whole groups already installed (no partial group, no
rehash in that iteration), and `expand` returns `false` so the triggering
lookup proceeds without expansion (no `expand_exception` restart) — but the
`TABLE_EXPANDING` flag is NOT cleared on this path, so no later lookup can
trigger an expansion again. -/
theorem C3_expand_oom :
    (∀ (trigger size : Nat) (st st' : DirState),
      expandIter trigger size st = (st', some .oom) →
      st'.level = st.level ∧ st'.split = st.split ∧
      st'.expanding = st.expanding ∧ groupsAppend st st') ∧
    (∀ (st st2 : DirState) (trigger : Nat),
      ¬st.expanding →
      expandLoop trigger (2 ^ st.level * st.initN) (2 ^ st.level * st.initN + 1)
          { st with expanding := true } = (st2, .oom) →
      expandModel st trigger = (st2, false) ∧ st2.expanding = true) := by
  constructor
  · intro trigger size st st' h
    rcases expandIter_characterize trigger size st with
      ⟨heq, _⟩ | ⟨s2, heq, hsh, happ, _⟩ | ⟨s2, heq, _⟩ | ⟨s2, heq, _⟩
    · rw [h] at heq
      simp at heq
    · rw [h] at heq
      simp only [Prod.mk.injEq, Option.some.injEq] at heq
      obtain ⟨rfl, -⟩ := heq
      exact ⟨hsh.1, hsh.2.1, hsh.2.2.2, happ⟩
    · rw [h] at heq
      simp at heq
    · rw [h] at heq
      simp at heq
  · intro st st2 trigger hexp hL
    constructor
    · unfold expandModel
      rw [if_neg hexp, hL]
    · have hpres := (expandLoop_spec trigger (2 ^ st.level * st.initN)
        (2 ^ st.level * st.initN + 1) { st with expanding := true }).2.2.1
      rw [hL] at hpres
      exact hpres

/-- C3 witness: the amended theorem at the concrete out-of-memory run on
`c3st`, discharging the flag and loop-result hypotheses. -/
theorem C3_expand_oom_witness :
    expandModel c3st 0
        = ((expandLoop 0 (2 ^ c3st.level * c3st.initN)
            (2 ^ c3st.level * c3st.initN + 1) { c3st with expanding := true }).1,
           false) ∧
    (expandLoop 0 (2 ^ c3st.level * c3st.initN)
      (2 ^ c3st.level * c3st.initN + 1)
      { c3st with expanding := true }).1.expanding = true :=
  C3_expand_oom.2 c3st
    (expandLoop 0 (2 ^ c3st.level * c3st.initN)
      (2 ^ c3st.level * c3st.initN + 1) { c3st with expanding := true }).1 0
    (by decide) (Prod.ext rfl (by decide))

/-- C6 counterexample: on `c6st` the trigger bucket (index 0) has its
overflow flag set throughout, yet `expand` returns after the round ends
(`level` 1 → 2, `split` reset to 0): the `break` at
src/associative_cache.cpp:561-566 exits the loop at the level increment
even though `trigger_cell->is_overflow()` still holds, so "the expansion
keeps splitting further buckets as long as the trigger bucket's
overflow_flag remains set" is false. -/
theorem C6_counterexample :
    (expandModel c6st 0).2 = true ∧
    (expandModel c6st 0).1.level = 2 ∧
    (expandModel c6st 0).1.split = 0 ∧
    (getCellD (expandModel c6st 0).1 0).overflow = true := by
  exact ⟨by decide, by decide, by decide, by decide⟩

/-- C6 (amended): in each iteration of `associative_cache::expand` (when no
group allocation is needed), the bucket at `split` is rehashed into the
bucket at `split + size` and `split` advances by one; when it reaches
`2^level · init_ncells`, `level` is incremented, `split` resets to 0 and
the call returns immediately — even if the trigger bucket's overflow flag
is still set.  Otherwise the loop continues exactly while the trigger
bucket's overflow flag remains set: an iteration exits with `trigCleared`
precisely when the flag is observed clear, and a loop that exits through
the guard leaves the trigger bucket's flag clear.  (Allocation failure also
stops the loop, see C3.) -/
theorem C6_expand_loop :
    (∀ (trigger size : Nat) (st : DirState),
      (getCellD st trigger).overflow = true →
      (st.split + size) / st.initN < st.groups.length →
      expandIter trigger size st
        = (if (rehashStep st size).split + 1 = size then
            ({ rehashStep st size with
                split := 0,
                level := (rehashStep st size).level + 1 }, some .roundEnd)
           else
            ({ rehashStep st size with
                split := (rehashStep st size).split + 1 }, none))) ∧
    (∀ (trigger size fuel : Nat) (st st' : DirState),
      expandIter trigger size st = (st', none) →
      expandLoop trigger size (fuel + 1) st = expandLoop trigger size fuel st') ∧
    (∀ (trigger size fuel : Nat) (st st' : DirState) (k : ExitKind),
      expandIter trigger size st = (st', some k) →
      expandLoop trigger size (fuel + 1) st = (st', k)) ∧
    (∀ (trigger size : Nat) (st : DirState),
      (expandIter trigger size st).2 = some .trigCleared ↔
        (getCellD st trigger).overflow = false) ∧
    (∀ (trigger size fuel : Nat) (st : DirState),
      (expandLoop trigger size fuel st).2 = .trigCleared →
      (getCellD (expandLoop trigger size fuel st).1 trigger).overflow = false) := by
  refine ⟨?_, ?_, ?_, ?_, ?_⟩
  · intro trigger size st hov hidx
    unfold expandIter
    rw [if_neg (by simp [hov]), if_neg (Nat.not_le.mpr hidx)]
  · intro trigger size fuel st st' h
    rw [expandLoop, h]
  · intro trigger size fuel st st' k h
    rw [expandLoop, h]
  · intro trigger size st
    constructor
    · intro h
      rcases expandIter_characterize trigger size st with
        ⟨heq, hov⟩ | ⟨s2, heq, _⟩ | ⟨s2, heq, _⟩ | ⟨s2, heq, _⟩
      · exact hov
      · rw [heq] at h
        simp at h
      · rw [heq] at h
        simp at h
      · rw [heq] at h
        simp at h
    · intro hov
      unfold expandIter
      rw [if_pos hov]
  · intro trigger size fuel st
    exact (expandLoop_spec trigger size fuel st).2.2.2.2

/-- C6 witness: the amended theorem at concrete states — a rehash-and-wrap
iteration on `c6st`, a continuing iteration on `c8stA`, the guard iff at a
clear-flag state, and a guard exit of the loop. -/
theorem C6_expand_loop_witness :
    (expandIter 0 2 c6st
      = (if (rehashStep c6st 2).split + 1 = 2 then
          ({ rehashStep c6st 2 with
              split := 0, level := (rehashStep c6st 2).level + 1 },
            some .roundEnd)
         else
          ({ rehashStep c6st 2 with
              split := (rehashStep c6st 2).split + 1 }, none))) ∧
    (expandLoop 0 2 2 c8stA = expandLoop 0 2 1 (expandIter 0 2 c8stA).1) ∧
    (expandLoop 0 2 1 c6st = ((expandIter 0 2 c6st).1, .roundEnd)) ∧
    ((expandIter 0 1 (initDirState 1 0)).2 = some .trigCleared) ∧
    ((getCellD (expandLoop 0 1 1 (initDirState 1 0)).1 0).overflow = false) := by
  refine ⟨?_, ?_, ?_, ?_, ?_⟩
  · exact C6_expand_loop.1 0 2 c6st (by decide) (by decide)
  · exact C6_expand_loop.2.1 0 2 1 c8stA (expandIter 0 2 c8stA).1
      (Prod.ext rfl (by decide))
  · exact C6_expand_loop.2.2.1 0 2 0 c6st (expandIter 0 2 c6st).1 .roundEnd
      (Prod.ext rfl (by decide))
  · exact (C6_expand_loop.2.2.2.1 0 1 (initDirState 1 0)).mpr (by decide)
  · exact C6_expand_loop.2.2.2.2 0 1 1 (initDirState 1 0) (by decide)

/-- One step of the `rehash` loop on a nonempty source, as the literal
branch structure of `hash_cell::rehash` (src/associative_cache.cpp:44-89). -/
theorem rehashGo_cons (h1f : Int → Int) (srcHash tgtHash : Int) (p : Page)
    (src tgt : List Page) :
    rehashGo h1f srcHash tgtHash (p :: src) tgt =
      if h1f p.offset ≠ tgtHash then
        ({ p with hits := 1 } :: (rehashGo h1f srcHash tgtHash src tgt).1,
         (rehashGo h1f srcHash tgtHash src tgt).2)
      else if srcHash ≠ h1f p.offset then
        if p.ref ≠ 0 then
          (p :: (rehashGo h1f srcHash tgtHash src tgt).1,
           (rehashGo h1f srcHash tgtHash src tgt).2)
        else
          match tgt with
          | [] =>
            (p :: (rehashGo h1f srcHash tgtHash src []).1,
             (rehashGo h1f srcHash tgtHash src []).2)
          | t :: tgtRest =>
            (t :: (rehashGo h1f srcHash tgtHash src tgtRest).1,
             p :: (rehashGo h1f srcHash tgtHash src tgtRest).2)
      else
        (p :: (rehashGo h1f srcHash tgtHash src tgt).1,
         (rehashGo h1f srcHash tgtHash src tgt).2) := rfl

/-- Per-slot characterization of the `rehash` loop when the target slots
are all uninitialized and at least as numerous as the source's: a
target-mapped unpinned source page is swapped out (its slot receives an
uninitialized page and the page itself moves into the target array); a
target-mapped pinned page stays wholly unchanged; any other page stays
with its hits set to 1. -/
theorem rehashGo_spec (h1f : Int → Int) (srcHash tgtHash : Int)
    (src tgt : List Page)
    (htgt : ∀ t ∈ tgt, t = freshPage) (hlen : src.length ≤ tgt.length) :
    (rehashGo h1f srcHash tgtHash src tgt).1.length = src.length ∧
    (rehashGo h1f srcHash tgtHash src tgt).2.length = tgt.length ∧
    ∀ (i : Nat) (p : Page), src[i]? = some p →
      (h1f p.offset = tgtHash → srcHash ≠ tgtHash → p.ref = 0 →
        (rehashGo h1f srcHash tgtHash src tgt).1[i]? = some freshPage ∧
        p ∈ (rehashGo h1f srcHash tgtHash src tgt).2) ∧
      (h1f p.offset = tgtHash → srcHash ≠ tgtHash → p.ref ≠ 0 →
        (rehashGo h1f srcHash tgtHash src tgt).1[i]? = some p) ∧
      (h1f p.offset ≠ tgtHash →
        (rehashGo h1f srcHash tgtHash src tgt).1[i]? =
          some { p with hits := 1 }) := by
  induction src generalizing tgt with
  | nil =>
    refine ⟨rfl, rfl, ?_⟩
    intro i p hp
    simp at hp
  | cons q src ih =>
    rw [rehashGo_cons]
    by_cases hq : h1f q.offset ≠ tgtHash
    · rw [if_pos hq]
      have hrec := ih tgt htgt (Nat.le_of_succ_le hlen)
      refine ⟨by simp [hrec.1], hrec.2.1, ?_⟩
      intro i p hp
      match i with
      | 0 =>
        simp only [List.getElem?_cons_zero, Option.some.injEq] at hp
        subst hp
        exact ⟨fun h1 => absurd h1 hq, fun h1 => absurd h1 hq, fun _ => by simp⟩
      | i + 1 =>
        simp only [List.getElem?_cons_succ] at hp
        simpa only [List.getElem?_cons_succ] using hrec.2.2 i p hp
    · have hEq : h1f q.offset = tgtHash := not_not.mp hq
      rw [if_neg hq]
      by_cases hs : srcHash ≠ h1f q.offset
      · rw [if_pos hs]
        by_cases hr : q.ref ≠ 0
        · rw [if_pos hr]
          have hrec := ih tgt htgt (Nat.le_of_succ_le hlen)
          refine ⟨by simp [hrec.1], hrec.2.1, ?_⟩
          intro i p hp
          match i with
          | 0 =>
            simp only [List.getElem?_cons_zero, Option.some.injEq] at hp
            subst hp
            exact ⟨fun _ _ h0 => absurd h0 hr, fun _ _ _ => by simp,
              fun h1 => absurd hEq h1⟩
          | i + 1 =>
            simp only [List.getElem?_cons_succ] at hp
            simpa only [List.getElem?_cons_succ] using hrec.2.2 i p hp
        · rw [if_neg hr]
          cases tgt with
          | nil =>
            simp only [List.length_cons, List.length_nil] at hlen
            exact absurd hlen (by omega)
          | cons t tgtRest =>
            have ht : t = freshPage := htgt t (List.mem_cons_self t tgtRest)
            have hrec := ih tgtRest
              (fun x hx => htgt x (List.mem_cons_of_mem t hx))
              (Nat.le_of_succ_le_succ hlen)
            dsimp only
            refine ⟨by simp [hrec.1], by simp [hrec.2.1], ?_⟩
            intro i p hp
            match i with
            | 0 =>
              simp only [List.getElem?_cons_zero, Option.some.injEq] at hp
              subst hp
              refine ⟨fun _ _ _ => ⟨by simp [ht], List.mem_cons_self _ _⟩,
                fun _ _ hr' => absurd hr' hr, fun h1 => absurd hEq h1⟩
            | i + 1 =>
              simp only [List.getElem?_cons_succ] at hp
              have h3 := hrec.2.2 i p hp
              refine ⟨fun a b c => ?_, fun a b c => ?_, fun a => ?_⟩
              · exact ⟨by simpa only [List.getElem?_cons_succ] using
                  (h3.1 a b c).1, List.mem_cons_of_mem q (h3.1 a b c).2⟩
              · simpa only [List.getElem?_cons_succ] using h3.2.1 a b c
              · simpa only [List.getElem?_cons_succ] using h3.2.2 a
      · have hsEq : srcHash = h1f q.offset := not_not.mp hs
        rw [if_neg hs]
        have hrec := ih tgt htgt (Nat.le_of_succ_le hlen)
        refine ⟨by simp [hrec.1], hrec.2.1, ?_⟩
        intro i p hp
        match i with
        | 0 =>
          simp only [List.getElem?_cons_zero, Option.some.injEq] at hp
          subst hp
          exact ⟨fun _ hne => absurd (hsEq.trans hEq) hne,
            fun _ hne => absurd (hsEq.trans hEq) hne,
            fun h1 => absurd hEq h1⟩
        | i + 1 =>
          simp only [List.getElem?_cons_succ] at hp
          simpa only [List.getElem?_cons_succ] using hrec.2.2 i p hp

/-- C4 counterexample: the pinned, dirty page `c4page` (hits 5, `ref = 1`)
maps to the target bucket under `hash1`; `hash_cell::rehash` leaves it in
place via the bare `continue` at src/associative_cache.cpp:75-77 WITHOUT
touching its hits counter, so the claim that every page left in place
because its refcount is non-zero "has its hits counter set to 1" is
false: the page keeps hits 5. -/
theorem C4_counterexample :
    c4h1 c4page.offset = (1 : Int) ∧
    c4page.ref ≠ 0 ∧
    getSlot (rehashCells c4h1 0 1 c4src c4tgt).1.pages 0 = c4page ∧
    (getSlot (rehashCells c4h1 0 1 c4src c4tgt).1.pages 0).hits = 5 := by
  exact ⟨by decide, by decide, by decide, by decide⟩

/-- C4 (amended): during a rehash step (target slots uninitialized and at
least as numerous as the source's), a source page whose `hash1` maps it to
the target bucket and whose refcount is zero is swapped with an
uninitialized target slot: the source slot receives the uninitialized page
and the page moves into the target bucket.  A page whose `hash1` maps it
to the target but whose refcount is non-zero is left in place completely
unchanged — its hits counter is NOT set to 1.  Every page whose `hash1`
does not map it to the target — stale mis-mapped pages, but also pages
correctly mapped to the source bucket — stays with its hits counter set
to 1. -/
theorem C4_rehash_pages (h1f : Int → Int) (srcHash tgtHash : Int)
    (src tgt : Cell)
    (htgt : ∀ t ∈ tgt.pages, t = freshPage)
    (hlen : src.pages.length ≤ tgt.pages.length) :
    ∀ (i : Nat) (p : Page), src.pages[i]? = some p →
      (h1f p.offset = tgtHash → srcHash ≠ tgtHash → p.ref = 0 →
        (rehashCells h1f srcHash tgtHash src tgt).1.pages[i]? = some freshPage ∧
        p ∈ (rehashCells h1f srcHash tgtHash src tgt).2.pages) ∧
      (h1f p.offset = tgtHash → srcHash ≠ tgtHash → p.ref ≠ 0 →
        (rehashCells h1f srcHash tgtHash src tgt).1.pages[i]? = some p) ∧
      (h1f p.offset ≠ tgtHash →
        (rehashCells h1f srcHash tgtHash src tgt).1.pages[i]? =
          some { p with hits := 1 }) := by
  intro i p hp
  exact (rehashGo_spec h1f srcHash tgtHash src.pages tgt.pages htgt hlen).2.2
    i p hp

/-- C4 witness: the three cases of the amended theorem at concrete
buckets — the movable page `c4pageMov` is swapped out, the pinned page
`c4page` stays unchanged, and the non-target-mapped fresh page in slot 1
stays with hits 1. -/
theorem C4_rehash_pages_witness :
    ((rehashCells c4h1 0 1 c4srcM c4tgt).1.pages[0]? = some freshPage ∧
      c4pageMov ∈ (rehashCells c4h1 0 1 c4srcM c4tgt).2.pages) ∧
    ((rehashCells c4h1 0 1 c4src c4tgt).1.pages[0]? = some c4page) ∧
    ((rehashCells c4h1 0 1 c4src c4tgt).1.pages[1]? =
      some { freshPage with hits := 1 }) :=
  ⟨(C4_rehash_pages c4h1 0 1 c4srcM c4tgt (by decide) (by decide) 0 c4pageMov
      rfl).1 (by decide) (by decide) (by decide),
   (C4_rehash_pages c4h1 0 1 c4src c4tgt (by decide) (by decide) 0 c4page
      rfl).2.1 (by decide) (by decide) (by decide),
   (C4_rehash_pages c4h1 0 1 c4src c4tgt (by decide) (by decide) 1 freshPage
      (by decide)).2.2 (by decide)⟩

theorem setCellL_length (cells : List Cell) (h : Nat) (c : Cell) :
    (setCellL cells h c).length = cells.length := by
  simp [setCellL]

theorem getCellL_set_self {cells : List Cell} {h : Nat} (c : Cell)
    (hlt : h < cells.length) : getCellL (setCellL cells h c) h = c := by
  simp [getCellL, setCellL, List.getD, List.getElem?_set_eq hlt]

theorem getCellL_set_ne {cells : List Cell} {h j : Nat} (c : Cell)
    (hne : h ≠ j) : getCellL (setCellL cells h c) j = getCellL cells j := by
  simp [getCellL, setCellL, List.getD, List.getElem?_set_ne hne]

theorem markReady_dataReady (p : Page) : (markReady p).dataReady = true := by
  unfold markReady
  by_cases h : p.dataReady = true
  · rw [if_pos h]; exact h
  · rw [if_neg h]

theorem markReady_rest (p : Page) :
    (markReady p).offset = p.offset ∧ (markReady p).data = p.data ∧
    (markReady p).ref = p.ref := by
  unfold markReady
  by_cases h : p.dataReady = true
  · rw [if_pos h]; exact ⟨rfl, rfl, rfl⟩
  · rw [if_neg h]; exact ⟨rfl, rfl, rfl⟩

/-- What one `hash_cell::search(off, old_off)` call changes, as far as the
preload loop observes it: the returned slot holds the requested offset with
its reference count incremented by exactly one, no other slot's reference
count moves, and no slot's frame bytes change (the search never reads file
data into a frame). -/
theorem searchCellOld_delta {c : Cell} {off oldOff : Int} {i : Nat}
    {c1 : Cell} {o : Int}
    (hlen : c.pages.length = CELL_SIZE)
    (h : searchCellOld c off oldOff = some (i, c1, o)) :
    i < c.pages.length ∧
    c1.pages.length = c.pages.length ∧
    (getSlot c1.pages i).offset = off ∧
    (getSlot c1.pages i).ref = (getSlot c.pages i).ref + 1 ∧
    (∀ j, j ≠ i → (getSlot c1.pages j).ref = (getSlot c.pages j).ref) ∧
    (∀ j, (getSlot c1.pages j).data = (getSlot c.pages j).data) := by
  unfold searchCellOld at h
  cases hf : findSlot c.pages off with
  | some k =>
    rw [hf] at h
    simp only [Option.some.injEq, Prod.mk.injEq] at h
    obtain ⟨rfl, rfl, rfl⟩ := h
    obtain ⟨hk, hoff⟩ := findSlot_some hf
    obtain ⟨hl, hs, ho⟩ := hitPage_spec c k hk
    refine ⟨hk, hl, ?_, ?_, ?_, ?_⟩
    · rw [hs.1]
      simpa [incRef] using hoff
    · rw [hs.2.2.2.2.2.2]
      simp [incRef]
    · intro j hj
      exact (ho j hj).2.2.2.2.2.2
    · intro j
      by_cases hjk : j = k
      · subst hjk
        rw [hs.2.1]
        simp [incRef]
      · exact (ho j hjk).2.1
  | none =>
    rw [hf] at h
    cases he : cellEvict c with
    | none =>
      rw [he] at h
      cases h
    | some kc =>
      obtain ⟨k, cv⟩ := kc
      rw [he] at h
      simp only [Option.some.injEq, Prod.mk.injEq] at h
      obtain ⟨rfl, rfl, rfl⟩ := h
      obtain ⟨hkc, hlv, hbp, hr0, hvslot⟩ := cellEvict_spec he
      have hk : k < c.pages.length := by rw [hlen]; exact hkc
      have hkv : k < cv.pages.length := by rw [hlv]; exact hk
      obtain ⟨hoo, hla, hsa, hoa⟩ := admitPage_spec cv k off hkv
      refine ⟨hk, by rw [hla, hlv], ?_, ?_, ?_, ?_⟩
      · rw [hsa.1, admitV3_offset]
      · rw [hsa.2.2.2.2.2.2, admitV3_ref, (hbp.2 k).2.2.2.2.2]
      · intro j hj
        rw [(hoa j hj).2.2.2.2.2.2, (hbp.2 j).2.2.2.2.2]
      · intro j
        by_cases hjk : j = k
        · subst hjk
          rw [hsa.2.1, admitV3_data, (hbp.2 j).2.1]
        · rw [(hoa j hjk).2.1, (hbp.2 j).2.1]

/-- What one preload iteration does to the cell table: the looked-up slot
ends data-ready at the requested (rounded) offset, every slot's reference
count is restored to its pre-iteration value, and no slot's frame bytes
change anywhere in the table. -/
theorem preloadStep_spec {cells cells1 : List Cell} {off : Int}
    (hpos : 0 < cells.length)
    (hlen : ∀ c ∈ cells, c.pages.length = CELL_SIZE)
    (h : preloadStep cells off = some cells1) :
    cells1.length = cells.length ∧
    (∀ c ∈ cells1, c.pages.length = CELL_SIZE) ∧
    (∃ hc i, hc < cells.length ∧ i < CELL_SIZE ∧
      (getSlot (getCellL cells1 hc).pages i).offset = ROUND_PAGE off ∧
      (getSlot (getCellL cells1 hc).pages i).dataReady = true) ∧
    (∀ hx j, (getSlot (getCellL cells1 hx).pages j).data
        = (getSlot (getCellL cells hx).pages j).data) ∧
    (∀ hx j, (getSlot (getCellL cells1 hx).pages j).ref
        = (getSlot (getCellL cells hx).pages j).ref) := by
  have hH : cacheHashOf cells (ROUND_PAGE off) < cells.length := by
    have h1 : Int.tmod (pageIdx (ROUND_PAGE off)) (cells.length : Int)
        < (cells.length : Int) :=
      Int.tmod_lt_of_pos _ (by exact_mod_cast hpos)
    unfold cacheHashOf
    omega
  have hmem : getCellL cells (cacheHashOf cells (ROUND_PAGE off)) ∈ cells := by
    rw [getCellL, List.getD_eq_getElem _ _ hH]
    exact List.getElem_mem hH
  have hclen :
      (getCellL cells (cacheHashOf cells (ROUND_PAGE off))).pages.length
        = CELL_SIZE := hlen _ hmem
  unfold preloadStep at h
  cases hsc : cacheSearchOld cells (ROUND_PAGE off) (-1) with
  | none =>
    rw [hsc] at h
    cases h
  | some q =>
    obtain ⟨hc, i, cellsm, o⟩ := q
    rw [hsc] at h
    simp only [Option.some.injEq] at h
    unfold cacheSearchOld at hsc
    cases hso : searchCellOld
        (getCellL cells (cacheHashOf cells (ROUND_PAGE off)))
        (ROUND_PAGE off) (-1) with
    | none =>
      rw [hso] at hsc
      cases hsc
    | some t =>
      obtain ⟨i0, c1, o0⟩ := t
      rw [hso] at hsc
      simp only [Option.some.injEq, Prod.mk.injEq] at hsc
      obtain ⟨rfl, rfl, rfl, rfl⟩ := hsc
      obtain ⟨hi0, hl1, hoff, href, hrefo, hdata⟩ := searchCellOld_delta hclen hso
      have hi0C : i0 < CELL_SIZE := by rw [hclen] at hi0; exact hi0
      have hi0l : i0 < c1.pages.length := by rw [hl1]; exact hi0
      have hHm : cacheHashOf cells (ROUND_PAGE off)
          < (setCellL cells (cacheHashOf cells (ROUND_PAGE off)) c1).length := by
        rw [setCellL_length]; exact hH
      rw [getCellL_set_self c1 hH] at h
      subst h
      refine ⟨by simp [setCellL], ?_, ?_, ?_, ?_⟩
      · intro c hcmem
        rcases List.mem_or_eq_of_mem_set hcmem with hcm | rfl
        · rcases List.mem_or_eq_of_mem_set hcm with hcm2 | rfl
          · exact hlen c hcm2
          · rw [hl1]; exact hclen
        · show (setSlot c1.pages i0 _).length = CELL_SIZE
          rw [setSlot, List.length_set, hl1]
          exact hclen
      · refine ⟨cacheHashOf cells (ROUND_PAGE off), i0, hH, hi0C, ?_, ?_⟩
        · rw [getCellL_set_self _ hHm]
          show (getSlot (setSlot c1.pages i0 _) i0).offset = ROUND_PAGE off
          rw [getSlot_set_self _ hi0l]
          show (markReady (getSlot c1.pages i0)).offset = ROUND_PAGE off
          rw [(markReady_rest _).1]
          exact hoff
        · rw [getCellL_set_self _ hHm]
          show (getSlot (setSlot c1.pages i0 _) i0).dataReady = true
          rw [getSlot_set_self _ hi0l]
          exact markReady_dataReady _
      · intro hx j
        by_cases hxH : hx = cacheHashOf cells (ROUND_PAGE off)
        · subst hxH
          rw [getCellL_set_self _ hHm]
          by_cases hji : j = i0
          · subst hji
            show (getSlot (setSlot c1.pages j _) j).data = _
            rw [getSlot_set_self _ hi0l]
            show (markReady (getSlot c1.pages j)).data = _
            rw [(markReady_rest _).2.1]
            exact hdata j
          · show (getSlot (setSlot c1.pages i0 _) j).data = _
            rw [getSlot_set_ne _ (fun hh => hji hh.symm)]
            exact hdata j
        · rw [getCellL_set_ne _ (fun hh => hxH hh.symm),
            getCellL_set_ne _ (fun hh => hxH hh.symm)]
      · intro hx j
        by_cases hxH : hx = cacheHashOf cells (ROUND_PAGE off)
        · subst hxH
          rw [getCellL_set_self _ hHm]
          by_cases hji : j = i0
          · subst hji
            show (getSlot (setSlot c1.pages j _) j).ref = _
            rw [getSlot_set_self _ hi0l]
            show (markReady (getSlot c1.pages j)).ref - 1 = _
            rw [(markReady_rest _).2.2]
            rw [href]
            omega
          · show (getSlot (setSlot c1.pages i0 _) j).ref = _
            rw [getSlot_set_ne _ (fun hh => hji hh.symm)]
            exact hrefo j hji
        · rw [getCellL_set_ne _ (fun hh => hxH hh.symm),
            getCellL_set_ne _ (fun hh => hxH hh.symm)]

/-- Across a whole preload loop, every slot of every bucket keeps its
frame bytes and its reference count. -/
theorem preloadLoop_spec (n : Nat) :
    ∀ (cells cells1 : List Cell) (off : Int),
      0 < cells.length →
      (∀ c ∈ cells, c.pages.length = CELL_SIZE) →
      preloadLoop cells off n = some cells1 →
      cells1.length = cells.length ∧
      (∀ hx j, (getSlot (getCellL cells1 hx).pages j).data
          = (getSlot (getCellL cells hx).pages j).data) ∧
      (∀ hx j, (getSlot (getCellL cells1 hx).pages j).ref
          = (getSlot (getCellL cells hx).pages j).ref) := by
  induction n with
  | zero =>
    intro cells cells1 off _ _ h
    simp only [preloadLoop, Option.some.injEq] at h
    subst h
    exact ⟨rfl, fun _ _ => rfl, fun _ _ => rfl⟩
  | succ n ih =>
    intro cells cells1 off hpos hlen h
    rw [preloadLoop] at h
    cases hst : preloadStep cells off with
    | none =>
      rw [hst] at h
      cases h
    | some cellsm =>
      rw [hst] at h
      obtain ⟨hl1, hlen1, _, hdata1, href1⟩ := preloadStep_spec hpos hlen hst
      have hpos1 : 0 < cellsm.length := by rw [hl1]; exact hpos
      obtain ⟨hl2, hdata2, href2⟩ := ih cellsm cells1 (off + PAGE_SIZE) hpos1 hlen1 h
      exact ⟨hl2.trans hl1,
        fun hx j => (hdata2 hx j).trans (hdata1 hx j),
        fun hx j => (href2 hx j).trans (href1 hx j)⟩

/-- C10 (confirmed): `preload(start, size)` terminates the process when
`size > cache_size` (the `exit(1)`) or when `start` is not page-aligned
(the `assert`); each iteration leaves the looked-up page — at the rounded
offset — data-ready without issuing any read, so the frame keeps whatever
bytes it already held (no slot's buffer contents change anywhere); and
every looked-up page's refcount is dropped before returning, so a whole
preload run leaves every slot's reference count exactly as it was. -/
theorem C10_preload :
    (∀ (cells : List Cell) (start size cacheSize : Int),
      size > cacheSize → preloadModel cells start size cacheSize = none) ∧
    (∀ (cells : List Cell) (start size cacheSize : Int),
      ROUND_PAGE start ≠ start → size ≤ cacheSize →
      preloadModel cells start size cacheSize = none) ∧
    (∀ (cells cells1 : List Cell) (off : Int),
      0 < cells.length →
      (∀ c ∈ cells, c.pages.length = CELL_SIZE) →
      preloadStep cells off = some cells1 →
      (∃ hc i, hc < cells.length ∧ i < CELL_SIZE ∧
        (getSlot (getCellL cells1 hc).pages i).offset = ROUND_PAGE off ∧
        (getSlot (getCellL cells1 hc).pages i).dataReady = true) ∧
      (∀ hx j, (getSlot (getCellL cells1 hx).pages j).data
          = (getSlot (getCellL cells hx).pages j).data) ∧
      (∀ hx j, (getSlot (getCellL cells1 hx).pages j).ref
          = (getSlot (getCellL cells hx).pages j).ref)) ∧
    (∀ (cells cells1 : List Cell) (start size cacheSize : Int),
      0 < cells.length →
      (∀ c ∈ cells, c.pages.length = CELL_SIZE) →
      preloadModel cells start size cacheSize = some cells1 →
      (∀ hx j, (getSlot (getCellL cells1 hx).pages j).data
          = (getSlot (getCellL cells hx).pages j).data) ∧
      (∀ hx j, (getSlot (getCellL cells1 hx).pages j).ref
          = (getSlot (getCellL cells hx).pages j).ref)) := by
  refine ⟨?_, ?_, ?_, ?_⟩
  · intro cells start size cacheSize hgt
    unfold preloadModel
    rw [if_pos hgt]
  · intro cells start size cacheSize halign hle
    unfold preloadModel
    rw [if_neg (not_lt.mpr hle), if_pos halign]
  · intro cells cells1 off hpos hlen h
    obtain ⟨_, _, hex, hdata, href⟩ := preloadStep_spec hpos hlen h
    exact ⟨hex, hdata, href⟩
  · intro cells cells1 start size cacheSize hpos hlen h
    unfold preloadModel at h
    by_cases hgt : size > cacheSize
    · rw [if_pos hgt] at h
      cases h
    · rw [if_neg hgt] at h
      by_cases halign : ROUND_PAGE start ≠ start
      · rw [if_pos halign] at h
        cases h
      · rw [if_neg halign] at h
        obtain ⟨_, hdata, href⟩ :=
          preloadLoop_spec (numPreloadPages size) cells cells1 start hpos hlen h
        exact ⟨hdata, href⟩

/-- C10 witness: the guards and the marking/preservation facts at the
concrete one-bucket cache `c10cache`, whose slot 0 holds a not-yet-ready
page at offset 0 with left-over frame bytes. -/
theorem C10_preload_witness :
    preloadModel c10cache 0 20000 16384 = none ∧
    preloadModel c10cache 5 4096 16384 = none ∧
    ((∃ hc i, hc < c10cache.length ∧ i < CELL_SIZE ∧
        (getSlot (getCellL ((preloadStep c10cache 0).getD []) hc).pages i).offset
          = ROUND_PAGE 0 ∧
        (getSlot (getCellL ((preloadStep c10cache 0).getD []) hc).pages i).dataReady
          = true) ∧
      (∀ hx j,
        (getSlot (getCellL ((preloadStep c10cache 0).getD []) hx).pages j).data
          = (getSlot (getCellL c10cache hx).pages j).data) ∧
      (∀ hx j,
        (getSlot (getCellL ((preloadStep c10cache 0).getD []) hx).pages j).ref
          = (getSlot (getCellL c10cache hx).pages j).ref)) ∧
    ((∀ hx j,
        (getSlot (getCellL ((preloadModel c10cache 0 4096 16384).getD []) hx).pages j).data
          = (getSlot (getCellL c10cache hx).pages j).data) ∧
      (∀ hx j,
        (getSlot (getCellL ((preloadModel c10cache 0 4096 16384).getD []) hx).pages j).ref
          = (getSlot (getCellL c10cache hx).pages j).ref)) :=
  ⟨C10_preload.1 c10cache 0 20000 16384 (by decide),
   C10_preload.2.1 c10cache 5 4096 16384 (by decide) (by decide),
   C10_preload.2.2.1 c10cache ((preloadStep c10cache 0).getD []) 0
     (by decide) (by decide) (by decide),
   C10_preload.2.2.2 c10cache ((preloadModel c10cache 0 4096 16384).getD [])
     0 4096 16384 (by decide) (by decide) (by decide)⟩

theorem condScale_eq (b : List Page) (cond : Prop) [Decidable cond] :
    (∀ j, eqExceptHits (getSlot b j)
      (getSlot (if cond then scaleDownHits b else b) j)) ∧
    (if cond then scaleDownHits b else b).length = b.length := by
  by_cases h : cond
  · rw [if_pos h]
    refine ⟨?_, scaleDown_length b⟩
    intro j
    by_cases hj : j < b.length
    · rw [scaleDown_getSlot b j hj]
      exact ⟨rfl, rfl, rfl, rfl, rfl, rfl, rfl⟩
    · rw [getSlot_oob (Nat.le_of_not_lt hj),
        getSlot_oob (b := scaleDownHits b)
          (by rw [scaleDown_length]; exact Nat.le_of_not_lt hj)]
      exact ⟨rfl, rfl, rfl, rfl, rfl, rfl, rfl⟩
  · rw [if_neg h]
    exact ⟨fun j => ⟨rfl, rfl, rfl, rfl, rfl, rfl, rfl⟩, rfl⟩

/-- What `hash_cell::search(off)` (the hit-only overload) changes: the
found slot held the requested offset and gets its refcount incremented by
one (hits bookkeeping aside), every other slot keeps its offset, refcount
and dirty flag. -/
theorem searchCellRef_delta {c : Cell} {off : Int} {i : Nat} {c1 : Cell}
    (h : searchCellRef c off = some (i, c1)) :
    i < c.pages.length ∧
    c1.pages.length = c.pages.length ∧
    (getSlot c.pages i).offset = off ∧
    (getSlot c1.pages i).offset = off ∧
    (getSlot c1.pages i).ref = (getSlot c.pages i).ref + 1 ∧
    (getSlot c1.pages i).dirty = (getSlot c.pages i).dirty ∧
    (∀ j, j ≠ i →
      (getSlot c1.pages j).offset = (getSlot c.pages j).offset ∧
      (getSlot c1.pages j).ref = (getSlot c.pages j).ref ∧
      (getSlot c1.pages j).dirty = (getSlot c.pages j).dirty) := by
  unfold searchCellRef at h
  cases hf : findSlot c.pages off with
  | none =>
    rw [hf] at h
    cases h
  | some k =>
    rw [hf] at h
    simp only [Option.some.injEq, Prod.mk.injEq] at h
    obtain ⟨rfl, rfl⟩ := h
    obtain ⟨hk, hoff⟩ := findSlot_some hf
    obtain ⟨hsc, hscl⟩ :=
      condScale_eq c.pages ((getSlot c.pages k).hits = 255)
    have hk1 : k <
        (if (getSlot c.pages k).hits = 255 then scaleDownHits c.pages
         else c.pages).length := by
      rw [hscl]; exact hk
    refine ⟨hk, ?_, hoff, ?_, ?_, ?_, ?_⟩
    · show (setSlot _ _ _).length = _
      rw [setSlot, List.length_set, hscl]
    · rw [getSlot_set_self _ hk1]
      simp only [pageHit]
      rw [(hsc k).1]
      exact hoff
    · rw [getSlot_set_self _ hk1]
      simp only [pageHit]
      rw [(hsc k).2.2.2.2.2.2]
    · rw [getSlot_set_self _ hk1]
      simp only [pageHit]
      exact (hsc k).2.2.2.1
    · intro j hj
      rw [getSlot_set_ne _ (fun he => hj he.symm)]
      exact ⟨(hsc j).1, (hsc j).2.2.2.2.2.2, (hsc j).2.2.2.1⟩

/-- What one multi-buffer `request_callback` iteration does: the searched
slot held the current offset and ends with its refcount lower by exactly
one (the search's increment followed by two decrements), keeping that
offset; every other slot of that bucket keeps its offset and refcount, and
every other bucket is untouched. -/
theorem reqCallbackStep_spec {cells cells1 : List Cell} {off : Int}
    (hpos : 0 < cells.length)
    (h : reqCallbackStep cells off = some cells1) :
    cells1.length = cells.length ∧
    (∀ hx, (getCellL cells1 hx).pages.length
        = (getCellL cells hx).pages.length) ∧
    ∃ i, i < (getCellL cells (cacheHashOf cells off)).pages.length ∧
      (getSlot (getCellL cells (cacheHashOf cells off)).pages i).offset = off ∧
      (getSlot (getCellL cells1 (cacheHashOf cells off)).pages i).offset
        = off ∧
      (getSlot (getCellL cells1 (cacheHashOf cells off)).pages i).ref
        = (getSlot (getCellL cells (cacheHashOf cells off)).pages i).ref - 1 ∧
      (∀ j, j ≠ i →
        (getSlot (getCellL cells1 (cacheHashOf cells off)).pages j).offset
          = (getSlot (getCellL cells (cacheHashOf cells off)).pages j).offset ∧
        (getSlot (getCellL cells1 (cacheHashOf cells off)).pages j).ref
          = (getSlot (getCellL cells (cacheHashOf cells off)).pages j).ref) ∧
      (∀ hx, hx ≠ cacheHashOf cells off →
        getCellL cells1 hx = getCellL cells hx) := by
  have hH : cacheHashOf cells off < cells.length := by
    have h1 : Int.tmod (pageIdx off) (cells.length : Int)
        < (cells.length : Int) :=
      Int.tmod_lt_of_pos _ (by exact_mod_cast hpos)
    unfold cacheHashOf
    omega
  unfold reqCallbackStep at h
  cases hsr : searchCellRef (getCellL cells (cacheHashOf cells off)) off with
  | none =>
    rw [hsr] at h
    cases h
  | some t =>
    obtain ⟨i, c1⟩ := t
    rw [hsr] at h
    dsimp only at h
    by_cases hd : (getSlot c1.pages i).dirty = true
    · rw [if_pos hd] at h
      simp only [Option.some.injEq] at h
      subst h
      obtain ⟨hi, hl1, hpre, hpost, href, hdirty, hoth⟩ :=
        searchCellRef_delta hsr
      have hHm : cacheHashOf cells off
          < (setCellL cells (cacheHashOf cells off)
              (cellPutSlot c1 i
                (decRef (decRef (clearFlagsFlush (getSlot c1.pages i)))))).length :=
        by rw [setCellL_length]; exact hH
      have hi1 : i < c1.pages.length := by rw [hl1]; exact hi
      have hgc : getCellL
          (setCellL cells (cacheHashOf cells off)
            (cellPutSlot c1 i
              (decRef (decRef (clearFlagsFlush (getSlot c1.pages i))))))
          (cacheHashOf cells off)
          = cellPutSlot c1 i
              (decRef (decRef (clearFlagsFlush (getSlot c1.pages i)))) :=
        getCellL_set_self _ hH
      refine ⟨by rw [setCellL_length], ?_, i, hi, hpre, ?_, ?_, ?_, ?_⟩
      · intro hx
        by_cases hxH : hx = cacheHashOf cells off
        · subst hxH
          rw [hgc]
          show (setSlot _ _ _).length = _
          rw [setSlot, List.length_set, hl1]
        · rw [getCellL_set_ne _ (fun he => hxH he.symm)]
      · rw [hgc]
        show (getSlot (setSlot _ _ _) i).offset = off
        rw [getSlot_set_self _ hi1]
        show (getSlot c1.pages i).offset = off
        exact hpost
      · rw [hgc]
        show (getSlot (setSlot _ _ _) i).ref = _
        rw [getSlot_set_self _ hi1]
        show (getSlot c1.pages i).ref - 1 - 1 = _
        rw [href]
        omega
      · intro j hj
        rw [hgc]
        show (getSlot (setSlot _ _ _) j).offset = _ ∧
          (getSlot (setSlot _ _ _) j).ref = _
        rw [getSlot_set_ne _ (fun he => hj he.symm)]
        exact ⟨(hoth j hj).1, (hoth j hj).2.1⟩
      · intro hx hxH
        rw [getCellL_set_ne _ (fun he => hxH he.symm)]
    · rw [if_neg hd] at h
      cases h

/-- Across a whole multi-buffer `request_callback` run, every slot's
refcount stays non-negative: each searched page held one flush reference
(`≥ 1` at its covered offset), gains one from the search and loses two. -/
theorem reqCallbackLoop_nonneg (n : Nat) :
    ∀ (cells cells1 : List Cell) (off : Int),
      0 < cells.length →
      (∀ hx, hx < cells.length → ∀ j, j < (getCellL cells hx).pages.length →
        0 ≤ (getSlot (getCellL cells hx).pages j).ref) →
      (∀ k, k < n → ∀ j,
        j < (getCellL cells
          (cacheHashOf cells (off + (k : Int) * PAGE_SIZE))).pages.length →
        (getSlot (getCellL cells
          (cacheHashOf cells (off + (k : Int) * PAGE_SIZE))).pages j).offset
            = off + (k : Int) * PAGE_SIZE →
        1 ≤ (getSlot (getCellL cells
          (cacheHashOf cells (off + (k : Int) * PAGE_SIZE))).pages j).ref) →
      reqCallbackLoop cells off n = some cells1 →
      ∀ hx, hx < cells1.length → ∀ j,
        j < (getCellL cells1 hx).pages.length →
        0 ≤ (getSlot (getCellL cells1 hx).pages j).ref := by
  induction n with
  | zero =>
    intro cells cells1 off _ href _ h
    simp only [reqCallbackLoop, Option.some.injEq] at h
    subst h
    exact href
  | succ n ih =>
    intro cells cells1 off hpos href hcov h
    rw [reqCallbackLoop] at h
    cases hst : reqCallbackStep cells off with
    | none =>
      rw [hst] at h
      cases h
    | some cellsm =>
      rw [hst] at h
      obtain ⟨hl, hcl, i, hi, hioff, hfoff, hiref, hoth, hcells⟩ :=
        reqCallbackStep_spec hpos hst
      have hpos1 : 0 < cellsm.length := by rw [hl]; exact hpos
      have hhash : ∀ x, cacheHashOf cellsm x = cacheHashOf cells x := by
        intro x
        unfold cacheHashOf
        rw [hl]
      have hc0 := hcov 0 (Nat.succ_pos n)
      simp only [Nat.cast_zero, zero_mul, add_zero] at hc0
      have hpre1 : 1 ≤ (getSlot (getCellL cells
          (cacheHashOf cells off)).pages i).ref := hc0 i hi hioff
      have href1 : ∀ hx, hx < cellsm.length → ∀ j,
          j < (getCellL cellsm hx).pages.length →
          0 ≤ (getSlot (getCellL cellsm hx).pages j).ref := by
        intro hx hxl j hjl
        have hxl0 : hx < cells.length := by rw [← hl]; exact hxl
        have hjl0 : j < (getCellL cells hx).pages.length := by
          rw [← hcl hx]; exact hjl
        by_cases hxH : hx = cacheHashOf cells off
        · subst hxH
          by_cases hji : j = i
          · subst hji
            rw [hiref]
            omega
          · rw [(hoth j hji).2]
            exact href _ hxl0 j hjl0
        · rw [hcells hx hxH]
          exact href _ hxl0 j hjl0
      have hcov1 : ∀ k, k < n → ∀ j,
          j < (getCellL cellsm
            (cacheHashOf cellsm
              ((off + PAGE_SIZE) + (k : Int) * PAGE_SIZE))).pages.length →
          (getSlot (getCellL cellsm
            (cacheHashOf cellsm
              ((off + PAGE_SIZE) + (k : Int) * PAGE_SIZE))).pages j).offset
              = (off + PAGE_SIZE) + (k : Int) * PAGE_SIZE →
          1 ≤ (getSlot (getCellL cellsm
            (cacheHashOf cellsm
              ((off + PAGE_SIZE) + (k : Int) * PAGE_SIZE))).pages j).ref := by
        intro k hk j hjl hoffeq
        rw [hhash] at hjl hoffeq ⊢
        have harith : (off + PAGE_SIZE) + (k : Int) * PAGE_SIZE
            = off + ((k + 1 : Nat) : Int) * PAGE_SIZE := by
          push_cast
          ring
        rw [harith] at hjl hoffeq ⊢
        have hc1 := hcov (k + 1) (Nat.succ_lt_succ hk)
        by_cases hHH : cacheHashOf cells (off + ((k + 1 : Nat) : Int) * PAGE_SIZE)
            = cacheHashOf cells off
        · rw [hHH] at hjl hoffeq ⊢
          by_cases hji : j = i
          · subst hji
            rw [hfoff] at hoffeq
            simp only [PAGE_SIZE] at hoffeq
            omega
          · rw [(hoth j hji).2]
            rw [(hoth j hji).1] at hoffeq
            have hjl0 : j < (getCellL cells
                (cacheHashOf cells off)).pages.length := by
              rw [← hcl]; exact hjl
            have := hc1 j (by rw [hHH]; exact hjl0) (by rw [hHH]; exact hoffeq)
            rw [hHH] at this
            exact this
        · rw [hcells _ hHH] at hjl hoffeq ⊢
          exact hc1 j hjl hoffeq
      exact ih cellsm cells1 (off + PAGE_SIZE) hpos1 href1 hcov1 h

theorem cellPutSlot_pages (c : Cell) (i : Nat) (p : Page) :
    (cellPutSlot c i p).pages = setSlot c.pages i p := rfl

theorem cellPutSlot_length (c : Cell) (i : Nat) (p : Page) :
    (cellPutSlot c i p).pages.length = c.pages.length := by
  rw [cellPutSlot_pages, setSlot, List.length_set]

theorem decRef_ref (p : Page) : (decRef p).ref = p.ref - 1 := rfl

theorem clearFlagsFlush_ref (p : Page) : (clearFlagsFlush p).ref = p.ref := rfl

theorem clearFlagsWrite_ref (p : Page) : (clearFlagsWrite p).ref = p.ref := rfl

/-- The single-buffer `request_callback` branch keeps every refcount
non-negative when the flush request holds a reference on its page. -/
theorem reqCallbackSingle_nonneg {cells cells1 : List Cell} {hc i : Nat}
    (hhc : hc < cells.length)
    (hi : i < (getCellL cells hc).pages.length)
    (href : ∀ hx, hx < cells.length → ∀ j,
      j < (getCellL cells hx).pages.length →
      0 ≤ (getSlot (getCellL cells hx).pages j).ref)
    (hheld : 1 ≤ (getSlot (getCellL cells hc).pages i).ref)
    (h : reqCallbackSingle cells hc i = some cells1) :
    ∀ hx, hx < cells1.length → ∀ j,
      j < (getCellL cells1 hx).pages.length →
      0 ≤ (getSlot (getCellL cells1 hx).pages j).ref := by
  unfold reqCallbackSingle at h
  by_cases hd : (getSlot (getCellL cells hc).pages i).dirty = true
  · rw [if_pos hd] at h
    simp only [Option.some.injEq] at h
    subst h
    intro hx hxl j hjl
    rw [setCellL_length] at hxl
    by_cases hxH : hx = hc
    · subst hxH
      rw [getCellL_set_self _ hhc, cellPutSlot_pages] at hjl ⊢
      rw [setSlot, List.length_set] at hjl
      by_cases hji : j = i
      · subst hji
        rw [getSlot_set_self _ hi, decRef_ref, clearFlagsFlush_ref]
        omega
      · rw [getSlot_set_ne _ (fun he => hji he.symm)]
        exact href hx hxl j hjl
    · rw [getCellL_set_ne _ (fun he => hxH he.symm)] at hjl ⊢
      exact href hx hxl j hjl
  · rw [if_neg hd] at h
    cases h

/-- The write branch of `multibuf_invoke` keeps every refcount
non-negative: each page appears once, and each non-private page holds the
reference the request took out on it (asserted when it was added,
src/io_request.cpp:34), which is the one dropped here; the private page is
not decremented. -/
theorem multibufWriteInvoke_nonneg (locs : List (Nat × Nat)) :
    ∀ (cells : List Cell) (priv : Nat × Nat),
      (∀ hx, hx < cells.length → ∀ j,
        j < (getCellL cells hx).pages.length →
        0 ≤ (getSlot (getCellL cells hx).pages j).ref) →
      (∀ l ∈ locs, l.1 < cells.length ∧
        l.2 < (getCellL cells l.1).pages.length) →
      (∀ l ∈ locs, l ≠ priv →
        1 ≤ (getSlot (getCellL cells l.1).pages l.2).ref) →
      locs.Nodup →
      ∀ hx, hx < (multibufWriteInvoke cells locs priv).length → ∀ j,
        j < (getCellL (multibufWriteInvoke cells locs priv) hx).pages.length →
        0 ≤ (getSlot (getCellL (multibufWriteInvoke cells locs priv) hx).pages j).ref := by
  induction locs with
  | nil =>
    intro cells priv href _ _ _
    exact href
  | cons l rest ih =>
    intro cells priv href hbound hheld hnd
    have hl1 := hbound l (List.mem_cons_self l rest)
    have hnd' := List.nodup_cons.mp hnd
    rw [multibufWriteInvoke]
    refine ih _ priv ?_ ?_ ?_ hnd'.2
    · intro hx hxl j hjl
      rw [setCellL_length] at hxl
      by_cases hxH : hx = l.1
      · subst hxH
        rw [getCellL_set_self _ hl1.1, cellPutSlot_pages] at hjl ⊢
        rw [setSlot, List.length_set] at hjl
        by_cases hji : j = l.2
        · subst hji
          rw [getSlot_set_self _ hl1.2]
          by_cases hp : l = priv
          · rw [if_pos hp, clearFlagsWrite_ref]
            exact href l.1 hl1.1 l.2 hl1.2
          · rw [if_neg hp, decRef_ref, clearFlagsWrite_ref]
            have := hheld l (List.mem_cons_self l rest) hp
            omega
        · rw [getSlot_set_ne _ (fun he => hji he.symm)]
          exact href l.1 hl1.1 j hjl
      · rw [getCellL_set_ne _ (fun he => hxH he.symm)] at hjl ⊢
        exact href hx hxl j hjl
    · intro lq hlq
      have hb := hbound lq (List.mem_cons_of_mem l hlq)
      constructor
      · rw [setCellL_length]
        exact hb.1
      · by_cases hxH : lq.1 = l.1
        · rw [hxH, getCellL_set_self _ hl1.1, cellPutSlot_length]
          rw [hxH] at hb
          exact hb.2
        · rw [getCellL_set_ne _ (fun he => hxH he.symm)]
          exact hb.2
    · intro lq hlq hlp
      have hne : lq ≠ l := fun he => hnd'.1 (he ▸ hlq)
      have hb := hheld lq (List.mem_cons_of_mem l hlq) hlp
      by_cases hxH : lq.1 = l.1
      · rw [hxH, getCellL_set_self _ hl1.1, cellPutSlot_pages]
        have hji : lq.2 ≠ l.2 := by
          intro he
          exact hne (Prod.ext hxH he)
        rw [getSlot_set_ne _ (fun he => hji he.symm)]
        rw [hxH] at hb
        exact hb
      · rw [getCellL_set_ne _ (fun he => hxH he.symm)]
        exact hb

/-- C2 (confirmed): no completion-callback path drives a page's refcount
below zero, given the references the system holds by construction (a page
added to a request has a positive refcount — asserted in `io_buf::init`,
src/io_request.cpp:34).  The multi-buffer flush callback searches each
covered page (+1) and decrements twice, netting out the flush reference,
so with every covered page holding one reference all refcounts stay ≥ 0;
the single-buffer branch drops exactly the one flush reference; and the
multi-buffer write completion clears flags and decrements each distinct
non-private page exactly once against the reference the request held. -/
theorem C2_refcount_nonneg :
    (∀ (n : Nat) (cells cells1 : List Cell) (off : Int),
      0 < cells.length →
      (∀ hx, hx < cells.length → ∀ j,
        j < (getCellL cells hx).pages.length →
        0 ≤ (getSlot (getCellL cells hx).pages j).ref) →
      (∀ k, k < n → ∀ j,
        j < (getCellL cells
          (cacheHashOf cells (off + (k : Int) * PAGE_SIZE))).pages.length →
        (getSlot (getCellL cells
          (cacheHashOf cells (off + (k : Int) * PAGE_SIZE))).pages j).offset
            = off + (k : Int) * PAGE_SIZE →
        1 ≤ (getSlot (getCellL cells
          (cacheHashOf cells (off + (k : Int) * PAGE_SIZE))).pages j).ref) →
      reqCallbackLoop cells off n = some cells1 →
      ∀ hx, hx < cells1.length → ∀ j,
        j < (getCellL cells1 hx).pages.length →
        0 ≤ (getSlot (getCellL cells1 hx).pages j).ref) ∧
    (∀ (cells cells1 : List Cell) (hc i : Nat),
      hc < cells.length →
      i < (getCellL cells hc).pages.length →
      (∀ hx, hx < cells.length → ∀ j,
        j < (getCellL cells hx).pages.length →
        0 ≤ (getSlot (getCellL cells hx).pages j).ref) →
      1 ≤ (getSlot (getCellL cells hc).pages i).ref →
      reqCallbackSingle cells hc i = some cells1 →
      ∀ hx, hx < cells1.length → ∀ j,
        j < (getCellL cells1 hx).pages.length →
        0 ≤ (getSlot (getCellL cells1 hx).pages j).ref) ∧
    (∀ (locs : List (Nat × Nat)) (cells : List Cell) (priv : Nat × Nat),
      (∀ hx, hx < cells.length → ∀ j,
        j < (getCellL cells hx).pages.length →
        0 ≤ (getSlot (getCellL cells hx).pages j).ref) →
      (∀ l ∈ locs, l.1 < cells.length ∧
        l.2 < (getCellL cells l.1).pages.length) →
      (∀ l ∈ locs, l ≠ priv →
        1 ≤ (getSlot (getCellL cells l.1).pages l.2).ref) →
      locs.Nodup →
      ∀ hx, hx < (multibufWriteInvoke cells locs priv).length → ∀ j,
        j < (getCellL (multibufWriteInvoke cells locs priv) hx).pages.length →
        0 ≤ (getSlot (getCellL (multibufWriteInvoke cells locs priv) hx).pages j).ref) :=
  ⟨fun n cells cells1 off => reqCallbackLoop_nonneg n cells cells1 off,
   fun _ _ _ _ hhc hi href hheld h => reqCallbackSingle_nonneg hhc hi href hheld h,
   fun locs cells priv => multibufWriteInvoke_nonneg locs cells priv⟩

/-- C2 witness: the three callback paths at concrete caches — a two-page
multi-buffer flush callback over offsets 0 and 4096, the single-buffer
branch on the dirty page at slot 0, and a multi-buffer write completion
with slot 0 as the private page. -/
theorem C2_refcount_nonneg_witness :
    (∀ hx, hx < ((reqCallbackLoop c2cacheW 0 2).getD []).length → ∀ j,
      j < (getCellL ((reqCallbackLoop c2cacheW 0 2).getD []) hx).pages.length →
      0 ≤ (getSlot (getCellL ((reqCallbackLoop c2cacheW 0 2).getD []) hx).pages j).ref) ∧
    (∀ hx, hx < ((reqCallbackSingle c2cache 0 0).getD []).length → ∀ j,
      j < (getCellL ((reqCallbackSingle c2cache 0 0).getD []) hx).pages.length →
      0 ≤ (getSlot (getCellL ((reqCallbackSingle c2cache 0 0).getD []) hx).pages j).ref) ∧
    (∀ hx, hx < (multibufWriteInvoke c2cacheW [(0, 0), (0, 1)] (0, 0)).length → ∀ j,
      j < (getCellL (multibufWriteInvoke c2cacheW [(0, 0), (0, 1)] (0, 0)) hx).pages.length →
      0 ≤ (getSlot (getCellL
        (multibufWriteInvoke c2cacheW [(0, 0), (0, 1)] (0, 0)) hx).pages j).ref) :=
  ⟨C2_refcount_nonneg.1 2 c2cacheW ((reqCallbackLoop c2cacheW 0 2).getD []) 0
      (by decide) (by decide) (by decide) (by decide),
   C2_refcount_nonneg.2.1 c2cache ((reqCallbackSingle c2cache 0 0).getD []) 0 0
      (by decide) (by decide) (by decide) (by decide) (by decide),
   C2_refcount_nonneg.2.2 [(0, 0), (0, 1)] c2cacheW (0, 0)
      (by decide) (by decide) (by decide) (by decide)⟩

/-- C5 (code bug): forward merging preserves the byte-for-byte layout of a
flush write request, but backward merging breaks it: `add_buf` appends the
earlier page's buffer at the END of the vector
(src/libsafs/io_request.cpp:101-106 writes `vec_pointer[num_bufs]`) while
`set_offset` makes that page's offset the request's new START
(src/associative_cache.cpp:674-679), so the first buffer of the merged
request no longer holds the page at the request's first position — on the
concrete run, the request starting at 8192 merged with the dirty page at
4096 ends as offset 4096 with buffers `[8192, 4096]`.  The transport would
write page 8192's bytes at file offset 4096 and vice versa.  (The
coordinator's own merger, `global_cached_io`'s `merge_pages2req` at
src/libcache/global_cached_private.cpp:754, uses `add_page_front` for this
case, and `io_req_extension::add_buf_front` exists at
src/libsafs/io_request.cpp:108 — but the flush engine's backward merge
never calls it.) -/
theorem C5_flush_write_order :
    (∀ (r : FlushReq) (pOff : Int),
      reqInOrder r → r.bufs ≠ [] →
      pOff = r.offset - PAGE_SIZE →
      ¬reqInOrder (backwardMerge r pOff)) ∧
    (mergeLoop false [c5req] c5map
        = some ([backwardMerge c5req 4096], [], []) ∧
      backwardMerge c5req 4096 = { offset := 4096, bufs := [8192, 4096] } ∧
      ¬reqInOrder (backwardMerge c5req 4096)) ∧
    (∀ r : FlushReq, reqInOrder r →
      reqInOrder (forwardMerge r (r.offset + reqSize r))) := by
  refine ⟨?_, ⟨by decide, by decide, by decide⟩, ?_⟩
  · intro r pOff hord hne hku h
    have h0len : 0 < r.bufs.length := List.length_pos.mpr hne
    have hlt : 0 < (backwardMerge r pOff).bufs.length := by
      show 0 < (r.bufs ++ [pOff]).length
      simp
    have h1 := h 0 hlt
    have hb0 : (backwardMerge r pOff).bufs[0]? = r.bufs[0]? := by
      show (r.bufs ++ [pOff])[0]? = _
      exact List.getElem?_append_left h0len
    rw [hb0, hord 0 h0len] at h1
    simp only [backwardMerge, addBuf] at h1
    simp only [Option.some.injEq, Nat.cast_zero, zero_mul, add_zero] at h1
    subst hku
    simp only [PAGE_SIZE] at h1
    omega
  · intro r hord k hk
    have hlen : (forwardMerge r (r.offset + reqSize r)).bufs.length
        = r.bufs.length + 1 := by
      simp [forwardMerge, addBuf]
    by_cases hkl : k < r.bufs.length
    · show (r.bufs ++ [r.offset + reqSize r])[k]? = _
      rw [List.getElem?_append_left hkl]
      exact hord k hkl
    · have hk1 : k = r.bufs.length := by
        rw [hlen] at hk
        omega
      subst hk1
      show (r.bufs ++ [r.offset + reqSize r])[r.bufs.length]? = _
      rw [List.getElem?_concat_length]
      simp [reqSize, forwardMerge, addBuf]

/-- C5 witness: the order-violation fact at the concrete backward merge of
the request at 8192 with the page at 4096, and the order-preservation fact
at the corresponding forward merge. -/
theorem C5_flush_write_order_witness :
    ¬reqInOrder (backwardMerge c5req 4096) ∧
    reqInOrder (forwardMerge c5req (c5req.offset + reqSize c5req)) :=
  ⟨C5_flush_write_order.1 c5req 4096 (by decide) (by decide) (by decide),
   C5_flush_write_order.2.2 c5req (by decide)⟩

end FlashGraph
